import Mathlib

/-!
# cachedb: the cache-aside product endpoint of `main.go`

A shallow embedding of `main.go`.  Go strings are byte sequences, Go slices
distinguish `nil` from the empty slice, and the collaborators the program
calls through its two global handles (the Redis client and the SQL
connection) are an explicit world that every operation threads through.
The `encoding/json` codec that `parseProductsToString` and
`parseStringToProducts` call is modelled for the one type the program
passes to it, `[]Product`; the two `strconv` float routines it relies on
are a parameter.
-/

namespace CacheDB

/-! ## Go values -/

/-- A Go `string`: a sequence of bytes, each a natural number below 256. -/
abbrev GoString := List Nat

/-- The bytes of an ASCII literal. -/
def ascii (s : String) : GoString := s.data.map Char.toNat

/-- A Go `float64` by its IEEE-754 binary64 fields. -/
structure Float64 where
  sign : Bool
  exponent : Fin 2048
  fraction : Fin 4503599627370496
  deriving DecidableEq, Repr

namespace Float64

/-- The zero value of `float64`, `+0`. -/
def zero : Float64 := ⟨false, 0, 0⟩

/-- Go `math.IsNaN`. -/
def isNaN (f : Float64) : Bool := f.exponent.val = 2047 && f.fraction.val ≠ 0

/-- Go `math.IsInf(f, 0)`. -/
def isInf (f : Float64) : Bool := f.exponent.val = 2047 && f.fraction.val = 0

/-- A quiet NaN. -/
def nan : Float64 := ⟨false, 2047, 2251799813685248⟩

/-- The float64 nearest to 9.99, bit pattern 0x4023FAE147AE147B. -/
def f9_99 : Float64 := ⟨false, 1026, 1121501860331643⟩

end Float64

/-- The two `strconv` routines `encoding/json` uses for a `float64`:
`formatFloat` is the number text the encoder writes for a finite value
(`strconv.AppendFloat` with precision -1 in the format the encoder picks,
after its exponent clean-up) and `parseFloat` is `strconv.ParseFloat(s, 64)`,
`none` when it reports an error. -/
structure Strconv where
  formatFloat : Float64 → GoString
  parseFloat : GoString → Option Float64

/-- Go `type Product struct`; `ProductID` is a Go `int` (64 bits). -/
structure Product where
  ProductID : Int
  ProductName : GoString
  RetailPrice : Float64
  deriving DecidableEq, Repr

/-- The zero value of `Product`, what `var product Product` declares. -/
def Product.zero : Product := ⟨0, [], Float64.zero⟩

/-- A Go slice value: the `nil` slice, or a (possibly empty) sequence. -/
inductive Slice (α : Type) where
  | null
  | items (xs : List α)
  deriving DecidableEq, Repr

namespace Slice

/-- Go `len`. -/
def len {α : Type} : Slice α → Nat
  | null => 0
  | items xs => xs.length

/-- Go `append(s, x)`. -/
def append {α : Type} : Slice α → α → Slice α
  | null, x => items [x]
  | items xs, x => items (xs ++ [x])

/-- The elements in order. -/
def toList {α : Type} : Slice α → List α
  | null => []
  | items xs => xs

/-- Go `s == nil`. -/
def isNil {α : Type} : Slice α → Bool
  | null => true
  | items _ => false

end Slice

/-- Go `type Response struct`. -/
structure Response where
  Products : Slice Product
  Source : GoString
  deriving DecidableEq, Repr

/-- The error values that reach the handler. -/
inductive GoError where
  | redisNil
  | redisFault (msg : GoString)
  | sqlFault (msg : GoString)
  | jsonUnsupportedValue
  | jsonMalformed
  | jsonTypeMismatch
  deriving DecidableEq, Repr

deriving instance DecidableEq for Except

/-- Whether a 64-bit Go `int` can hold the value. -/
def inInt64 (i : Int) : Prop := -9223372036854775808 ≤ i ∧ i ≤ 9223372036854775807

instance (i : Int) : Decidable (inInt64 i) := by unfold inInt64; infer_instance

/-! ## UTF-8 (`unicode/utf8`) -/

/-- Whether a byte is a UTF-8 continuation byte. -/
def isCont (b : Nat) : Bool := decide (128 ≤ b) && decide (b ≤ 191)

/-- Go `utf8.DecodeRuneInString` at the head of a byte string: the rune and
its width in bytes; `(0xFFFD, 1)` for an invalid or truncated encoding and
`(0xFFFD, 0)` for the empty string. -/
def decodeRune : GoString → Nat × Nat
  | [] => (65533, 0)
  | b0 :: rest =>
    if b0 < 128 then (b0, 1)
    else if b0 < 194 then (65533, 1)
    else if b0 < 224 then
      match rest with
      | b1 :: _ => if isCont b1 then ((b0 % 32) * 64 + b1 % 64, 2) else (65533, 1)
      | [] => (65533, 1)
    else if b0 < 240 then
      match rest with
      | b1 :: b2 :: _ =>
        if decide ((if b0 = 224 then 160 else 128) ≤ b1) && decide (b1 ≤ (if b0 = 237 then 159 else 191))
            && isCont b2 then
          ((b0 % 16) * 4096 + (b1 % 64) * 64 + b2 % 64, 3)
        else (65533, 1)
      | _ => (65533, 1)
    else if b0 < 245 then
      match rest with
      | b1 :: b2 :: b3 :: _ =>
        if decide ((if b0 = 240 then 144 else 128) ≤ b1) && decide (b1 ≤ (if b0 = 244 then 143 else 191))
            && isCont b2 && isCont b3 then
          ((b0 % 8) * 262144 + (b1 % 64) * 4096 + (b2 % 64) * 64 + b3 % 64, 4)
        else (65533, 1)
      | _ => (65533, 1)
    else (65533, 1)

/-- Go `utf8.EncodeRune`: surrogates and values above U+10FFFF encode as
U+FFFD. -/
def encodeRune (r : Nat) : GoString :=
  if r < 128 then [r]
  else if r < 2048 then [192 + r / 64, 128 + r % 64]
  else if 1114111 < r ∨ (55296 ≤ r ∧ r ≤ 57343) then [239, 191, 189]
  else if r < 65536 then [224 + r / 4096, 128 + r / 64 % 64, 128 + r % 64]
  else [240 + r / 262144, 128 + r / 4096 % 64, 128 + r / 64 % 64, 128 + r % 64]

/-- Go `utf8.ValidString`, walking at most `fuel` runes. -/
def validUTF8Aux : Nat → GoString → Bool
  | _, [] => true
  | 0, _ :: _ => false
  | fuel + 1, b :: rest =>
    let d := decodeRune (b :: rest)
    if d.1 = 65533 ∧ d.2 = 1 then false
    else validUTF8Aux fuel ((b :: rest).drop d.2)

/-- Go `utf8.ValidString`. -/
def validUTF8 (s : GoString) : Bool := validUTF8Aux s.length s

/-! ## `encoding/json`: encoding -/

/-- The digit `"0123456789abcdef"[n]` of the encoder's `hex` table. -/
def hexDigit (n : Nat) : Nat := if n < 10 then 48 + n else 87 + n

/-- The encoder's `htmlSafeSet`: the ASCII bytes written without escaping
(`0x20`..`0x7f` other than the quote, the backslash, `<`, `>` and `&`). -/
def htmlSafe (b : Nat) : Bool :=
  decide (32 ≤ b) && decide (b < 128) && b != 34 && b != 92 && b != 60 && b != 62 && b != 38

/-- What `appendString` writes for an ASCII byte outside `htmlSafeSet`
(the short forms `\b` and `\f` are those of Go 1.22 and later; earlier
releases write `\u0008` and `\u000c`, which decode alike). -/
def escapeByte (b : Nat) : GoString :=
  if b = 92 ∨ b = 34 then [92, b]
  else if b = 8 then [92, 98]
  else if b = 12 then [92, 102]
  else if b = 10 then [92, 110]
  else if b = 13 then [92, 114]
  else if b = 9 then [92, 116]
  else [92, 117, 48, 48, hexDigit (b / 16), hexDigit (b % 16)]

/-- The loop of `appendString` (`escapeHTML` set, as `json.Marshal` sets
it) over the bytes still to be written. -/
def appendStringBody : Nat → GoString → GoString
  | _, [] => []
  | 0, _ :: _ => []
  | fuel + 1, b :: rest =>
    if b < 128 then
      (if htmlSafe b then [b] else escapeByte b) ++ appendStringBody fuel rest
    else
      let d := decodeRune (b :: rest)
      if d.1 = 65533 ∧ d.2 = 1 then
        [92, 117, 102, 102, 102, 100] ++ appendStringBody fuel rest
      else if d.1 = 8232 ∨ d.1 = 8233 then
        [92, 117, 50, 48, 50, hexDigit (d.1 % 16)] ++ appendStringBody fuel ((b :: rest).drop d.2)
      else
        (b :: rest).take d.2 ++ appendStringBody fuel ((b :: rest).drop d.2)

/-- The encoder's `appendString`: a JSON string literal for a Go string. -/
def appendString (src : GoString) : GoString :=
  34 :: (appendStringBody src.length src ++ [34])

/-- Decimal digits of a natural number, most significant first, in front
of `acc`. -/
def formatNatAux : Nat → Nat → GoString → GoString
  | 0, _, acc => acc
  | fuel + 1, n, acc =>
    if n < 10 then (48 + n) :: acc
    else formatNatAux fuel (n / 10) ((48 + n % 10) :: acc)

/-- Decimal text of a natural number. -/
def formatNat (n : Nat) : GoString := formatNatAux (n + 1) n []

/-- Go `strconv.AppendInt(b, i, 10)`. -/
def formatInt (i : Int) : GoString :=
  if i < 0 then 45 :: formatNat i.natAbs else formatNat i.natAbs

/-- The encoder on a `float64`: `UnsupportedValueError` for NaN and the
infinities, the `strconv` text otherwise. -/
def encodeFloat (sc : Strconv) (f : Float64) : Option GoString :=
  if f.isNaN || f.isInf then none else some (sc.formatFloat f)

/-- The encoder on a `Product`: its three fields under their JSON tags, in
declaration order. -/
def encodeProduct (sc : Strconv) (p : Product) : Option GoString :=
  match encodeFloat sc p.RetailPrice with
  | none => none
  | some price =>
    some (ascii "\x7b\"productid\":" ++ formatInt p.ProductID
      ++ ascii ",\"productName\":" ++ appendString p.ProductName
      ++ ascii ",\"retailPrice\":" ++ price ++ [125])

/-- The elements of a non-empty array, comma separated. -/
def encodeElems (sc : Strconv) : List Product → Option GoString
  | [] => some []
  | [p] => encodeProduct sc p
  | p :: q :: ps =>
    match encodeProduct sc p, encodeElems sc (q :: ps) with
    | some a, some b => some (a ++ 44 :: b)
    | _, _ => none

/-- Go `json.Marshal` on a `[]Product`: `null` for the nil slice, an array
otherwise; `none` is the `UnsupportedValueError`. -/
def marshalProducts (sc : Strconv) : Slice Product → Option GoString
  | .null => some (ascii "null")
  | .items xs =>
    match encodeElems sc xs with
    | none => none
    | some body => some (91 :: (body ++ [93]))

/-- Go `json.Marshal` on a `Response`, the body `ctx.JSON` writes. -/
def marshalResponse (sc : Strconv) (r : Response) : Option GoString :=
  match marshalProducts sc r.Products with
  | none => none
  | some ps =>
    some (ascii "\x7b\"products\":" ++ ps ++ ascii ",\"source\":" ++ appendString r.Source ++ [125])

/-! ## `encoding/json`: scanning -/

/-- A JSON value as the scanner delimits it: numbers keep their text and
strings (object keys too) the bytes between their quotes. -/
inductive JValue where
  | null
  | bool (b : Bool)
  | number (lit : GoString)
  | string (raw : GoString)
  | array (elems : List JValue)
  | object (members : List (GoString × JValue))
  deriving Repr

/-- The scanner's `isSpace`. -/
def isSpace (b : Nat) : Bool := b == 32 || b == 9 || b == 13 || b == 10

/-- Skip JSON white space. -/
def skipSpace : GoString → GoString
  | [] => []
  | b :: rest => if isSpace b then skipSpace rest else b :: rest

/-- Whether a byte is an ASCII decimal digit. -/
def isDigit (b : Nat) : Bool := decide (48 ≤ b) && decide (b ≤ 57)

/-- Whether a byte is an ASCII hexadecimal digit. -/
def isHex (b : Nat) : Bool :=
  isDigit b || (decide (97 ≤ b) && decide (b ≤ 102)) || (decide (65 ≤ b) && decide (b ≤ 70))

/-- Put scanned bytes in front of the token a scan returns. -/
def consTok (pre : GoString) : Option (GoString × GoString) → Option (GoString × GoString)
  | none => none
  | some (tok, rest) => some (pre ++ tok, rest)

/-- The scanner inside a string literal (states `stateInString`,
`stateInStringEsc`, `stateInStringEscU`...), after the opening quote: the
bytes up to the closing quote and the input after it. -/
def scanString : GoString → Option (GoString × GoString)
  | [] => none
  | b :: rest =>
    if b = 34 then some ([], rest)
    else if b = 92 then
      match rest with
      | [] => none
      | c :: rest1 =>
        if c = 117 then
          match rest1 with
          | h1 :: h2 :: h3 :: h4 :: rest2 =>
            if isHex h1 && isHex h2 && isHex h3 && isHex h4 then
              consTok [92, 117, h1, h2, h3, h4] (scanString rest2)
            else none
          | _ => none
        else if c = 98 ∨ c = 102 ∨ c = 110 ∨ c = 114 ∨ c = 116 ∨ c = 92 ∨ c = 47 ∨ c = 34 then
          consTok [92, c] (scanString rest1)
        else none
    else if b < 32 then none
    else consTok [b] (scanString rest)

/-- The scanner's states inside a number: `stateNeg`, `state0`, `state1`,
`stateDot`, `stateDot0`, `stateE`, `stateESign`, `stateE0`. -/
inductive NumState where
  | neg | zero | int | dot | frac | e | esign | exp
  deriving DecidableEq, Repr

/-- The state a number starts in, from its first byte. -/
def numStart (b : Nat) : Option NumState :=
  if b = 45 then some .neg
  else if b = 48 then some .zero
  else if isDigit b then some .int
  else none

/-- One scanner step inside a number; `none` when the byte cannot continue
the number. -/
def numStep : NumState → Nat → Option NumState
  | .neg, b => if b = 48 then some .zero else if isDigit b then some .int else none
  | .zero, b => if b = 46 then some .dot else if b = 101 ∨ b = 69 then some .e else none
  | .int, b =>
    if isDigit b then some .int
    else if b = 46 then some .dot else if b = 101 ∨ b = 69 then some .e else none
  | .dot, b => if isDigit b then some .frac else none
  | .frac, b => if isDigit b then some .frac else if b = 101 ∨ b = 69 then some .e else none
  | .e, b => if b = 43 ∨ b = 45 then some .esign else if isDigit b then some .exp else none
  | .esign, b => if isDigit b then some .exp else none
  | .exp, b => if isDigit b then some .exp else none

/-- The states in which a number may end. -/
def numAccept : NumState → Bool
  | .zero | .int | .frac | .exp => true
  | _ => false

/-- Scan the rest of a number: its remaining bytes and the input after it. -/
def scanNumber : NumState → GoString → Option (GoString × GoString)
  | st, [] => if numAccept st then some ([], []) else none
  | st, b :: rest =>
    match numStep st b with
    | some st1 => consTok [b] (scanNumber st1 rest)
    | none => if numAccept st then some ([], b :: rest) else none

/-- Whether a text is, as a whole, a number of the JSON grammar. -/
def isNumberLit : GoString → Bool
  | [] => false
  | b :: rest =>
    match numStart b with
    | none => false
    | some st =>
      match scanNumber st rest with
      | some (_, []) => true
      | _ => false

/-- The scanner's `maxNestingDepth`. -/
def maxNestingDepth : Nat := 10000

/-- Consume the bytes of a literal name (`true`, `false`, `null`) after
its first letter. -/
def expect : GoString → GoString → Option GoString
  | [], inp => some inp
  | _ :: _, [] => none
  | c :: cs, b :: inp => if b = c then expect cs inp else none

mutual

/-- Scan one value at the head of the input (`stateBeginValue`, white space
already skipped), `depth` being the number of enclosing arrays and
objects. -/
def parseValue : Nat → Nat → GoString → Option (JValue × GoString)
  | 0, _, _ => none
  | _ + 1, _, [] => none
  | fuel + 1, depth, b :: rest =>
    if b = 123 then
      if maxNestingDepth ≤ depth then none
      else
        match skipSpace rest with
        | [] => none
        | c :: rest1 =>
          if c = 125 then some (.object [], rest1)
          else parseMembers fuel (depth + 1) (c :: rest1) []
    else if b = 91 then
      if maxNestingDepth ≤ depth then none
      else
        match skipSpace rest with
        | [] => none
        | c :: rest1 =>
          if c = 93 then some (.array [], rest1)
          else parseElems fuel (depth + 1) (c :: rest1) []
    else if b = 34 then
      match scanString rest with
      | some (raw, rest1) => some (.string raw, rest1)
      | none => none
    else if b = 116 then
      match expect [114, 117, 101] rest with
      | some rest1 => some (.bool true, rest1)
      | none => none
    else if b = 102 then
      match expect [97, 108, 115, 101] rest with
      | some rest1 => some (.bool false, rest1)
      | none => none
    else if b = 110 then
      match expect [117, 108, 108] rest with
      | some rest1 => some (.null, rest1)
      | none => none
    else
      match numStart b with
      | none => none
      | some st =>
        match scanNumber st rest with
        | some (lit, rest1) => some (.number (b :: lit), rest1)
        | none => none

/-- Scan the elements of an array from the head of an element on, up to
and including the closing bracket; `acc` holds the elements already
scanned. -/
def parseElems : Nat → Nat → GoString → List JValue → Option (JValue × GoString)
  | 0, _, _, _ => none
  | fuel + 1, depth, inp, acc =>
    match parseValue fuel depth inp with
    | none => none
    | some (v, rest) =>
      match skipSpace rest with
      | [] => none
      | c :: rest1 =>
        if c = 44 then parseElems fuel depth (skipSpace rest1) (acc ++ [v])
        else if c = 93 then some (.array (acc ++ [v]), rest1)
        else none

/-- Scan the members of an object from the head of a key on, up to and
including the closing brace. -/
def parseMembers : Nat → Nat → GoString → List (GoString × JValue) →
    Option (JValue × GoString)
  | 0, _, _, _ => none
  | fuel + 1, depth, inp, acc =>
    match inp with
    | [] => none
    | q :: inp1 =>
      if q = 34 then
        match scanString inp1 with
        | none => none
        | some (key, rest) =>
          match skipSpace rest with
          | [] => none
          | c :: rest1 =>
            if c = 58 then
              match parseValue fuel depth (skipSpace rest1) with
              | none => none
              | some (v, rest2) =>
                match skipSpace rest2 with
                | [] => none
                | d :: rest3 =>
                  if d = 44 then parseMembers fuel depth (skipSpace rest3) (acc ++ [(key, v)])
                  else if d = 125 then some (.object (acc ++ [(key, v)]), rest3)
                  else none
            else none
      else none

end

/-- The decoder's `checkValid` together with the value it delimits: the
input must be one JSON value between optional white space. -/
def parseDocument (data : GoString) : Option JValue :=
  match parseValue (data.length + 1) 0 (skipSpace data) with
  | none => none
  | some (v, rest) => if skipSpace rest = [] then some v else none

/-! ## `encoding/json`: decoding into `[]Product` -/

/-- The value of a hexadecimal digit. -/
def hexVal (c : Nat) : Option Nat :=
  if 48 ≤ c ∧ c ≤ 57 then some (c - 48)
  else if 97 ≤ c ∧ c ≤ 102 then some (c - 87)
  else if 65 ≤ c ∧ c ≤ 70 then some (c - 55)
  else none

/-- The decoder's `getu4`: the code unit of a leading `\uXXXX`, `none`
where Go returns -1. -/
def getu4 : GoString → Option Nat
  | b :: u :: h1 :: h2 :: h3 :: h4 :: _ =>
    if b = 92 ∧ u = 117 then
      match hexVal h1, hexVal h2, hexVal h3, hexVal h4 with
      | some a, some b, some c, some d => some (((a * 16 + b) * 16 + c) * 16 + d)
      | _, _, _, _ => none
    else none
  | _ => none

/-- Put decoded bytes in front of what the rest of a string decodes to. -/
def consOut (pre : GoString) : Option GoString → Option GoString
  | none => none
  | some out => some (pre ++ out)

/-- One round of the loop of the decoder's `unquoteBytes`, at byte `c`
followed by `rest`: the bytes it writes and the input it leaves.  Escapes
are resolved, surrogate pairs combined, and anything that is not
well-formed UTF-8 is coerced to U+FFFD. -/
def unquoteStep (c : Nat) (rest : GoString) : Option (GoString × GoString) :=
  if c = 92 then
    match rest with
    | [] => none
    | e :: rest1 =>
      if e = 34 ∨ e = 92 ∨ e = 47 ∨ e = 39 then some ([e], rest1)
      else if e = 98 then some ([8], rest1)
      else if e = 102 then some ([12], rest1)
      else if e = 110 then some ([10], rest1)
      else if e = 114 then some ([13], rest1)
      else if e = 116 then some ([9], rest1)
      else if e = 117 then
        match getu4 (c :: rest) with
        | none => none
        | some rr =>
          if 55296 ≤ rr ∧ rr < 57344 then
            match getu4 (rest1.drop 4) with
            | some rr1 =>
              if rr < 56320 ∧ 56320 ≤ rr1 ∧ rr1 < 57344 then
                some (encodeRune ((rr - 55296) * 1024 + (rr1 - 56320) + 65536), rest1.drop 10)
              else some (encodeRune 65533, rest1.drop 4)
            | none => some (encodeRune 65533, rest1.drop 4)
          else some (encodeRune rr, rest1.drop 4)
      else none
  else if c = 34 ∨ c < 32 then none
  else if c < 128 then some ([c], rest)
  else some (encodeRune (decodeRune (c :: rest)).1, (c :: rest).drop (decodeRune (c :: rest)).2)

/-- The loop of the decoder's `unquoteBytes` over the bytes between the
quotes. -/
def unquoteAux : Nat → GoString → Option GoString
  | _, [] => some []
  | 0, _ :: _ => none
  | fuel + 1, c :: rest =>
    match unquoteStep c rest with
    | none => none
    | some (out, rest1) => consOut out (unquoteAux fuel rest1)

/-- The decoder's `unquoteBytes` on the bytes between the quotes. -/
def unquote (raw : GoString) : Option GoString := unquoteAux raw.length raw

/-- Digits to their value, `none` unless every byte is a decimal digit. -/
def parseDigits : GoString → Nat → Option Nat
  | [], acc => some acc
  | b :: rest, acc => if isDigit b then parseDigits rest (acc * 10 + (b - 48)) else none

/-- Go `strconv.ParseInt(s, 10, 64)`: an optional sign and decimal digits,
within the range of a 64-bit integer. -/
def parseInt (s : GoString) : Option Int :=
  match s with
  | [] => none
  | b :: rest =>
    if b = 45 then
      match rest with
      | [] => none
      | _ :: _ =>
        match parseDigits rest 0 with
        | some n => if n ≤ 9223372036854775808 then some (-(n : Int)) else none
        | none => none
    else
      match parseDigits (if b = 43 then rest else b :: rest) 0 with
      | some n =>
        if (b = 43 ∧ rest = []) then none
        else if n ≤ 9223372036854775807 then some (n : Int) else none
      | none => none

/-- The decoder's `foldName` on ASCII: letters to upper case. -/
def foldName (key : GoString) : GoString :=
  key.map (fun b => if 97 ≤ b ∧ b ≤ 122 then b - 32 else b)

/-- The decoder's `literalStore` into the `int` field `ProductID`: a number
that `strconv.ParseInt` accepts is stored, `null` leaves the field as it
is, anything else is an `UnmarshalTypeError` (`none`). -/
def storeID (p : Product) : JValue → Option Product
  | .null => some p
  | .number lit =>
    match parseInt lit with
    | some i => some { p with ProductID := i }
    | none => none
  | _ => none

/-- The decoder's `literalStore` into the `string` field `ProductName`. -/
def storeName (p : Product) : JValue → Option Product
  | .null => some p
  | .string raw =>
    match unquote raw with
    | some s => some { p with ProductName := s }
    | none => none
  | _ => none

/-- The decoder's `literalStore` into the `float64` field `RetailPrice`. -/
def storePrice (sc : Strconv) (p : Product) : JValue → Option Product
  | .null => some p
  | .number lit =>
    match sc.parseFloat lit with
    | some f => some { p with RetailPrice := f }
    | none => none
  | _ => none

/-- Store one object member into a `Product` as the decoder's `object`
does: the key selects a field by its JSON tag, letter case ignored; an
unknown key is skipped. -/
def setField (sc : Strconv) (p : Product) (key : GoString) (v : JValue) : Option Product :=
  match unquote key with
  | none => none
  | some name =>
    if foldName name = ascii "PRODUCTID" then storeID p v
    else if foldName name = ascii "PRODUCTNAME" then storeName p v
    else if foldName name = ascii "RETAILPRICE" then storePrice sc p v
    else some p

/-- Store the members of an object, in order, into a `Product`. -/
def decodeMembers (sc : Strconv) : List (GoString × JValue) → Product → Option Product
  | [], p => some p
  | (key, v) :: rest, p =>
    match setField sc p key v with
    | none => none
    | some p1 => decodeMembers sc rest p1

/-- Decode one array element into a fresh `Product`: an object fills its
fields, `null` leaves the zero value, anything else is an
`UnmarshalTypeError`. -/
def decodeElem (sc : Strconv) : JValue → Option Product
  | .object members => decodeMembers sc members Product.zero
  | .null => some Product.zero
  | _ => none

/-- Decode every element of an array. -/
def decodeElems (sc : Strconv) : List JValue → Option (List Product)
  | [] => some []
  | v :: rest =>
    match decodeElem sc v, decodeElems sc rest with
    | some p, some ps => some (p :: ps)
    | _, _ => none

/-- Decode a document into a nil `[]Product`: an array gives a non-nil
slice (empty for `[]`), `null` leaves the slice nil, anything else is an
`UnmarshalTypeError`. -/
def decodeSlice (sc : Strconv) : JValue → Option (Slice Product)
  | .array elems =>
    match decodeElems sc elems with
    | some ps => some (.items ps)
    | none => none
  | .null => some .null
  | _ => none

/-- Go `json.Unmarshal(data, &products)` with `products` a nil
`[]Product`. -/
def unmarshalProducts (sc : Strconv) (data : GoString) : Except GoError (Slice Product) :=
  match parseDocument data with
  | none => .error .jsonMalformed
  | some v =>
    match decodeSlice sc v with
    | none => .error .jsonTypeMismatch
    | some ps => .ok ps

/-- The value tree of the text the encoder writes for a product. -/
def productTree (sc : Strconv) (p : Product) : JValue :=
  .object [(ascii "productid", .number (formatInt p.ProductID)),
    (ascii "productName",
      .string (appendStringBody p.ProductName.length p.ProductName)),
    (ascii "retailPrice", .number (sc.formatFloat p.RetailPrice))]

/-- What `encoding/json` relies on `strconv` for, at one value: the text
written for it is a number of the JSON grammar and `strconv.ParseFloat`
reads it back as the same value.  Go documents this for every finite
`float64` (the shortest text that parses back exactly). -/
def Strconv.RoundTrips (sc : Strconv) (f : Float64) : Prop :=
  isNumberLit (sc.formatFloat f) = true ∧ sc.parseFloat (sc.formatFloat f) = some f

instance (sc : Strconv) (f : Float64) : Decidable (sc.RoundTrips f) := by
  unfold Strconv.RoundTrips; infer_instance

/-- A collection the codec is asked to carry without loss: every name is
well-formed UTF-8, every identifier fits a 64-bit `int`, every price is
finite. -/
def Carriable (x : Slice Product) : Prop :=
  ∀ p ∈ x.toList, validUTF8 p.ProductName = true ∧ inInt64 p.ProductID ∧
    p.RetailPrice.isNaN = false ∧ p.RetailPrice.isInf = false

/-! ## The collaborators -/

/-- What `rows.Scan` did with one row of the result set: it stored all
three columns, or it returned an error and left `product` as given (the
columns before the failing one stored, the others still zero). -/
inductive RowScan where
  | ok (product : Product)
  | failed (product : Product)
  deriving DecidableEq, Repr

/-- The `product` variable after `rows.Scan`, error or not. -/
def RowScan.product : RowScan → Product
  | .ok p => p
  | .failed p => p

/-- Whether `rows.Scan` returned a nil error. -/
def RowScan.succeeded : RowScan → Bool
  | .ok _ => true
  | .failed _ => false

/-- A call the program makes on one of its two global handles. -/
inductive Call where
  | redisGet (key : GoString)
  | redisSet (key value : GoString) (ttl : Nat)
  | dbQuery (sql : GoString)
  deriving DecidableEq, Repr

/-- Everything outside the program that a request touches: the clock (in
nanoseconds), the Redis keyspace (each key with its value and the instant
it expires), the transport failures the two Redis commands meet, what the
SQL query answers, and the record of the calls and log lines made so
far. -/
structure World where
  now : Nat
  keys : GoString → Option (GoString × Nat)
  getFault : Option GoString
  setFault : Option GoString
  query : Except GoString (List RowScan)
  calls : List Call
  logs : List GoString

/-- Go `time.Second`, in nanoseconds. -/
def second : Nat := 1000000000

/-- Redis `GET key`, as `redisClient.Get(ctx, key).Result()` reports it:
the value of a key that is present and not yet expired, `redis.Nil` for a
key that is absent or expired, another error when the command fails. -/
def redisGet (key : GoString) (w : World) : Except GoError GoString × World :=
  let w1 := { w with calls := w.calls ++ [Call.redisGet key] }
  match w.getFault with
  | some msg => (.error (.redisFault msg), w1)
  | none =>
    match w.keys key with
    | some (value, expiry) => if w.now < expiry then (.ok value, w1) else (.error .redisNil, w1)
    | none => (.error .redisNil, w1)

/-- Redis `SET key value` with an expiration, as
`redisClient.Set(ctx, key, value, ttl).Err()` reports it: the key is
replaced and expires `ttl` from now, unless the command fails. -/
def redisSet (key value : GoString) (ttl : Nat) (w : World) : Option GoError × World :=
  let w1 := { w with calls := w.calls ++ [Call.redisSet key value ttl] }
  match w.setFault with
  | some msg => (some (.redisFault msg), w1)
  | none =>
    (none, { w1 with keys := fun k => if k = key then some (value, w.now + ttl) else w.keys k })

/-- Go `dbConnection.Query(sql)`: the rows of the result set, each with
what scanning it will do, or the error of a query that cannot be
issued. -/
def dbQuery (sql : GoString) (w : World) : Except GoError (List RowScan) × World :=
  let w1 := { w with calls := w.calls ++ [Call.dbQuery sql] }
  match w.query with
  | .error msg => (.error (.sqlFault msg), w1)
  | .ok rows => (.ok rows, w1)

/-! ## `main.go` -/

/-- The SQL text `getProductsFromDB` issues. -/
def selectProducts : GoString :=
  ascii "SELECT product_id, product_name, retail_price FROM products"

/-- The `for rows.Next()` loop of `getProductsFromDB`: each row is scanned
into a fresh `product`, a scan error is logged, and `product` is appended
to `products`. -/
def scanRows : List RowScan → Slice Product → List GoString → Slice Product × List GoString
  | [], products, logs => (products, logs)
  | row :: rows, products, logs =>
    let logs1 :=
      if row.succeeded then logs else logs ++ [ascii "Can't scan row into product struct"]
    scanRows rows (products.append row.product) logs1

/-- Go `getProductsFromDB`. -/
def getProductsFromDB (w : World) : Except GoError (Slice Product) × World :=
  match dbQuery selectProducts w with
  | (.error err, w1) => (.error err, w1)
  | (.ok rows, w1) =>
    let r := scanRows rows (.items []) w1.logs
    (.ok r.1, { w1 with logs := r.2 })

/-- Go `getProductsFromRedis`. -/
def getProductsFromRedis (w : World) : Except GoError GoString × World :=
  redisGet (ascii "Products") w

/-- Go `parseProductsToString`. -/
def parseProductsToString (sc : Strconv) (products : Slice Product) : Except GoError GoString :=
  match marshalProducts sc products with
  | none => .error .jsonUnsupportedValue
  | some productsJson => .ok productsJson

/-- Go `parseStringToProducts`. -/
def parseStringToProducts (sc : Strconv) (productsString : GoString) :
    Except GoError (Slice Product) :=
  match unmarshalProducts sc productsString with
  | .error err => .error err
  | .ok products => .ok products

/-- Go `setProductsToRedis`: `none` is the nil error. -/
def setProductsToRedis (sc : Strconv) (products : Slice Product) (w : World) :
    Option GoError × World :=
  match parseProductsToString sc products with
  | .error err => (some err, w)
  | .ok productsString => redisSet (ascii "Products") productsString (10 * second) w

/-- The body `ctx.JSON` is given: a `Response` or an error value. -/
inductive Body where
  | envelope (resp : Response)
  | failure (err : GoError)
  deriving DecidableEq, Repr

/-- What the handler writes with `ctx.JSON`. -/
structure HttpResponse where
  status : Nat
  body : Body
  deriving DecidableEq, Repr

/-- Go `getProductsHandler`. -/
def getProductsHandler (sc : Strconv) (w : World) : HttpResponse × World :=
  match getProductsFromRedis w with
  | (.error _, w1) =>
    match getProductsFromDB w1 with
    | (.error err, w2) => (⟨500, .failure err⟩, w2)
    | (.ok products, w2) =>
      match setProductsToRedis sc products w2 with
      | (some err, w3) => (⟨500, .failure err⟩, w3)
      | (none, w3) => (⟨200, .envelope ⟨products, ascii "Database"⟩⟩, w3)
  | (.ok result, w1) =>
    match parseStringToProducts sc result with
    | .error err => (⟨500, .failure err⟩, w1)
    | .ok products => (⟨200, .envelope ⟨products, ascii "Redis"⟩⟩, w1)

/-- The calls one request makes: what the handler adds to the record. -/
def requestCalls (sc : Strconv) (w : World) : List Call :=
  (getProductsHandler sc w).2.calls.drop w.calls.length

/-! ## Concrete data for evaluation -/

/-- A fragment of `strconv`, exact on the two values it knows: `+0` is
written `0` and the float64 nearest to 9.99 is written `9.99`. -/
def sampleStrconv : Strconv where
  formatFloat f := if f = Float64.f9_99 then ascii "9.99" else ascii "0"
  parseFloat s :=
    if s = ascii "9.99" then some Float64.f9_99
    else if s = ascii "0" then some Float64.zero
    else none

/-- The product of the scenario: identifier 1, name `Widget`, price 9.99. -/
def widget : Product := ⟨1, ascii "Widget", Float64.f9_99⟩

/-- A world with an empty cache, no failures, and a store holding the
rows given. -/
def freshWorld (now : Nat) (rows : List RowScan) : World where
  now := now
  keys := fun _ => none
  getFault := none
  setFault := none
  query := .ok rows
  calls := []
  logs := []

/-- A world whose cache holds `value` under `Products` until `expiry`,
with no failures and a store holding the rows given. -/
def cachedWorld (now : Nat) (value : GoString) (expiry : Nat) (rows : List RowScan) : World where
  now := now
  keys := fun k => if k = ascii "Products" then some (value, expiry) else none
  getFault := none
  setFault := none
  query := .ok rows
  calls := []
  logs := []

/-- The encoding of the collection holding only `widget`. -/
def widgetJson : GoString :=
  ascii "[\x7b\"productid\":1,\"productName\":\"Widget\",\"retailPrice\":9.99\x7d]"

/-- A product whose name is the single byte `0xff`, not well-formed
UTF-8. -/
def badName : Product := ⟨1, [255], Float64.zero⟩

/-- The name `encoding/json` gives back for `badName`: U+FFFD. -/
def badNameDecoded : Product := ⟨1, [239, 191, 189], Float64.zero⟩

/-- A product whose price is NaN. -/
def nanPriced : Product := ⟨1, ascii "Widget", Float64.nan⟩

/-- A world with an empty cache whose store cannot be queried. -/
def storeDownWorld (now : Nat) : World where
  now := now
  keys := fun _ => none
  getFault := none
  setFault := none
  query := .error (ascii "connection refused")
  calls := []
  logs := []

/-! # Theorems -/

/-! ## The handler's collaborators: basic facts -/

theorem redisGet_snd (key : GoString) (w : World) :
    (redisGet key w).2 = { w with calls := w.calls ++ [Call.redisGet key] } := by
  unfold redisGet
  cases w.getFault with
  | some msg => rfl
  | none =>
    cases w.keys key with
    | none => rfl
    | some e =>
      obtain ⟨value, expiry⟩ := e
      by_cases h : w.now < expiry <;> simp [h]

theorem getProductsFromRedis_eq (w : World) :
    getProductsFromRedis w =
      ((getProductsFromRedis w).1,
        { w with calls := w.calls ++ [Call.redisGet (ascii "Products")] }) := by
  have h := redisGet_snd (ascii "Products") w
  unfold getProductsFromRedis
  rw [← h]

theorem getProductsFromDB_error (w : World) (e : GoError)
    (h : (getProductsFromDB w).1 = .error e) :
    getProductsFromDB w = (.error e, { w with calls := w.calls ++
      [Call.dbQuery selectProducts] }) := by
  unfold getProductsFromDB dbQuery selectProducts at *
  cases hq : w.query with
  | error msg => simp [hq] at h ⊢; exact h
  | ok rows => simp [hq] at h

theorem getProductsFromDB_ok (w : World) (x : Slice Product)
    (h : (getProductsFromDB w).1 = .ok x) :
    ∃ logs, getProductsFromDB w = (.ok x, { w with
      calls := w.calls ++
        [Call.dbQuery selectProducts],
      logs := logs }) := by
  unfold getProductsFromDB dbQuery selectProducts at *
  cases hq : w.query with
  | error msg => simp [hq] at h
  | ok rows =>
    simp [hq] at h ⊢
    exact h

/-! ## The handler -/

/-- C1: a cache hit whose payload decodes to `x` is answered 200 with
exactly `x` and source `Redis`; the only call made is the cache get, so the
store is not queried (and the cache is not written). -/
theorem C1_cache_hit_served_from_cache (sc : Strconv) (w : World) (s : GoString)
    (x : Slice Product)
    (hget : (getProductsFromRedis w).1 = .ok s)
    (hparse : parseStringToProducts sc s = .ok x) :
    (getProductsHandler sc w).1 = ⟨200, .envelope ⟨x, ascii "Redis"⟩⟩ ∧
    (getProductsHandler sc w).2.calls = w.calls ++ [Call.redisGet (ascii "Products")] ∧
    (∀ sql, Call.dbQuery sql ∉ [Call.redisGet (ascii "Products")]) ∧
    (getProductsHandler sc w).2.keys = w.keys := by
  have h := getProductsFromRedis_eq w
  rw [hget] at h
  unfold getProductsHandler
  rw [h]
  simp [hparse]

/-- C5: after a cache Miss, a store error is answered 500 with that error;
the calls made are the cache get and the query, no cache set, and the
cache is as it was. -/
theorem C5_store_failure_no_cache_write (sc : Strconv) (w : World) (e : GoError)
    (hget : (getProductsFromRedis w).1 = .error .redisNil)
    (hdb : (getProductsFromDB (getProductsFromRedis w).2).1 = .error e) :
    (getProductsHandler sc w).1 = ⟨500, .failure e⟩ ∧
    (getProductsHandler sc w).2.calls =
      w.calls ++ [Call.redisGet (ascii "Products"), Call.dbQuery selectProducts] ∧
    (∀ k v t, Call.redisSet k v t ∉
      [Call.redisGet (ascii "Products"), Call.dbQuery selectProducts]) ∧
    (getProductsHandler sc w).2.keys = w.keys := by
  have h := getProductsFromRedis_eq w
  rw [hget] at h
  rw [h] at hdb
  have h2 := getProductsFromDB_error _ e hdb
  unfold getProductsHandler
  rw [h]
  simp only [h2]
  simp

/-- C6: a cache hit whose payload does not decode is answered 500 with the
decoding error; the only call made is the cache get, so there is no store
fallback and no cache write. -/
theorem C6_corrupt_hit_fails_request (sc : Strconv) (w : World) (s : GoString) (e : GoError)
    (hget : (getProductsFromRedis w).1 = .ok s)
    (hparse : parseStringToProducts sc s = .error e) :
    (getProductsHandler sc w).1 = ⟨500, .failure e⟩ ∧
    (getProductsHandler sc w).2.calls = w.calls ++ [Call.redisGet (ascii "Products")] ∧
    (∀ sql, Call.dbQuery sql ∉ [Call.redisGet (ascii "Products")]) ∧
    (∀ k v t, Call.redisSet k v t ∉ [Call.redisGet (ascii "Products")]) ∧
    (getProductsHandler sc w).2.keys = w.keys := by
  have h := getProductsFromRedis_eq w
  rw [hget] at h
  unfold getProductsHandler
  rw [h]
  simp [hparse]

theorem redisSet_fst (key value : GoString) (ttl : Nat) (w : World) :
    (redisSet key value ttl w).1 = none ↔ w.setFault = none := by
  unfold redisSet
  cases w.setFault <;> simp

/-- C8: after a failed cache get and a store fetch of `x`, a failure to
encode `x` or a failed cache set is answered 500 with an error body, never
an envelope; the answer is 200 exactly when both succeed, and it then
carries `x` with source `Database`. -/
theorem C8_repopulation_failure_fails_request (sc : Strconv) (w : World)
    (x : Slice Product) (e0 : GoError)
    (hget : (getProductsFromRedis w).1 = .error e0)
    (hdb : (getProductsFromDB (getProductsFromRedis w).2).1 = .ok x) :
    (((∃ e, parseProductsToString sc x = .error e) ∨
        (∃ s, parseProductsToString sc x = .ok s ∧
          (redisSet (ascii "Products") s (10 * second)
            (getProductsFromDB (getProductsFromRedis w).2).2).1 ≠ none)) →
      (getProductsHandler sc w).1.status = 500 ∧
      ∃ e, (getProductsHandler sc w).1.body = .failure e) ∧
    ((getProductsHandler sc w).1.status = 200 ↔
      ∃ s, parseProductsToString sc x = .ok s ∧
        (redisSet (ascii "Products") s (10 * second)
          (getProductsFromDB (getProductsFromRedis w).2).2).1 = none) ∧
    ((getProductsHandler sc w).1.status = 200 →
      (getProductsHandler sc w).1.body = .envelope ⟨x, ascii "Database"⟩) := by
  have h := getProductsFromRedis_eq w
  rw [hget] at h
  rw [h] at hdb ⊢
  obtain ⟨logs, h2⟩ := getProductsFromDB_ok _ x hdb
  unfold getProductsHandler
  rw [h]
  simp only [h2]
  unfold setProductsToRedis
  cases hp : parseProductsToString sc x with
  | error e => simp
  | ok s =>
    simp only [redisSet_fst]
    unfold redisSet
    cases hs : w.setFault with
    | none => simp
    | some msg => simp

theorem scanRows_fst (rows : List RowScan) (acc : Slice Product) (l1 l2 : List GoString) :
    (scanRows rows acc l1).1 = (scanRows rows acc l2).1 := by
  induction rows generalizing acc l1 l2 with
  | nil => rfl
  | cons row rows ih => exact ih _ _ _

theorem getProductsFromDB_fst (w : World) :
    (getProductsFromDB w).1 =
      match w.query with
      | .error msg => .error (.sqlFault msg)
      | .ok rows => .ok (scanRows rows (.items []) []).1 := by
  unfold getProductsFromDB dbQuery
  cases w.query with
  | error msg => rfl
  | ok rows => exact congrArg Except.ok (scanRows_fst rows _ _ _)

theorem getProductsFromDB_snd (w : World) :
    (getProductsFromDB w).2 =
      match w.query with
      | .error _ => { w with calls := w.calls ++ [Call.dbQuery selectProducts] }
      | .ok rows => { w with calls := w.calls ++ [Call.dbQuery selectProducts],
                             logs := (scanRows rows (.items []) w.logs).2 } := by
  unfold getProductsFromDB dbQuery
  cases h : w.query with
  | error msg => rfl
  | ok rows => simp [h]

theorem handler_hit (sc : Strconv) (w : World) (s : GoString)
    (hget : (getProductsFromRedis w).1 = .ok s) :
    getProductsHandler sc w =
      ((match parseStringToProducts sc s with
        | .error err => ⟨500, .failure err⟩
        | .ok products => ⟨200, .envelope ⟨products, ascii "Redis"⟩⟩),
       { w with calls := w.calls ++ [Call.redisGet (ascii "Products")] }) := by
  have h := getProductsFromRedis_eq w
  rw [hget] at h
  unfold getProductsHandler
  rw [h]
  cases hp : parseStringToProducts sc s <;> simp [hp]

theorem handler_store_error (sc : Strconv) (w : World) (e0 : GoError) (msg : GoString)
    (hget : (getProductsFromRedis w).1 = .error e0) (hq : w.query = .error msg) :
    getProductsHandler sc w =
      (⟨500, .failure (.sqlFault msg)⟩,
       { w with calls := w.calls ++
          [Call.redisGet (ascii "Products"), Call.dbQuery selectProducts] }) := by
  have h := getProductsFromRedis_eq w
  rw [hget] at h
  unfold getProductsHandler
  rw [h]
  simp [getProductsFromDB, dbQuery, hq]

theorem handler_encode_error (sc : Strconv) (w : World) (e0 e : GoError)
    (rows : List RowScan)
    (hget : (getProductsFromRedis w).1 = .error e0) (hq : w.query = .ok rows)
    (hp : parseProductsToString sc (scanRows rows (.items []) []).1 = .error e) :
    getProductsHandler sc w =
      (⟨500, .failure e⟩,
       { w with
          calls := w.calls ++ [Call.redisGet (ascii "Products"), Call.dbQuery selectProducts]
          logs := (scanRows rows (.items []) w.logs).2 }) := by
  have h := getProductsFromRedis_eq w
  rw [hget] at h
  rw [scanRows_fst rows _ [] w.logs] at hp
  unfold getProductsHandler
  rw [h]
  simp [getProductsFromDB, dbQuery, hq, setProductsToRedis, hp]

theorem handler_set_error (sc : Strconv) (w : World) (e0 : GoError)
    (rows : List RowScan) (s msg : GoString)
    (hget : (getProductsFromRedis w).1 = .error e0) (hq : w.query = .ok rows)
    (hp : parseProductsToString sc (scanRows rows (.items []) []).1 = .ok s)
    (hs : w.setFault = some msg) :
    getProductsHandler sc w =
      (⟨500, .failure (.redisFault msg)⟩,
       { w with
          calls := w.calls ++ [Call.redisGet (ascii "Products"), Call.dbQuery selectProducts,
            Call.redisSet (ascii "Products") s (10 * second)]
          logs := (scanRows rows (.items []) w.logs).2 }) := by
  have h := getProductsFromRedis_eq w
  rw [hget] at h
  rw [scanRows_fst rows _ [] w.logs] at hp
  unfold getProductsHandler
  rw [h]
  simp [getProductsFromDB, dbQuery, hq, setProductsToRedis, hp, redisSet, hs]

theorem handler_repopulated (sc : Strconv) (w : World) (e0 : GoError)
    (rows : List RowScan) (s : GoString)
    (hget : (getProductsFromRedis w).1 = .error e0) (hq : w.query = .ok rows)
    (hp : parseProductsToString sc (scanRows rows (.items []) []).1 = .ok s)
    (hs : w.setFault = none) :
    getProductsHandler sc w =
      (⟨200, .envelope ⟨(scanRows rows (.items []) []).1, ascii "Database"⟩⟩,
       { w with
          calls := w.calls ++ [Call.redisGet (ascii "Products"), Call.dbQuery selectProducts,
            Call.redisSet (ascii "Products") s (10 * second)]
          logs := (scanRows rows (.items []) w.logs).2
          keys := fun k =>
            if k = ascii "Products" then some (s, w.now + 10 * second) else w.keys k }) := by
  have h := getProductsFromRedis_eq w
  rw [hget] at h
  have hp1 := hp
  rw [scanRows_fst rows _ [] w.logs] at hp1
  unfold getProductsHandler
  rw [h]
  simp [getProductsFromDB, dbQuery, hq, setProductsToRedis, hp1, redisSet, hs]
  exact scanRows_fst _ _ _ _

theorem getProductsFromRedis_fst (w : World) :
    (getProductsFromRedis w).1 =
      match w.getFault with
      | some msg => .error (.redisFault msg)
      | none =>
        match w.keys (ascii "Products") with
        | some (value, expiry) => if w.now < expiry then .ok value else .error .redisNil
        | none => .error .redisNil := by
  unfold getProductsFromRedis redisGet
  cases w.getFault with
  | some msg => rfl
  | none =>
    cases w.keys (ascii "Products") with
    | none => rfl
    | some e =>
      obtain ⟨value, expiry⟩ := e
      by_cases h : w.now < expiry <;> simp [h]

theorem requestCalls_eq (sc : Strconv) (w : World) (l : List Call)
    (h : (getProductsHandler sc w).2.calls = w.calls ++ l) : requestCalls sc w = l := by
  unfold requestCalls
  rw [h]
  exact List.drop_left _ _

/-- The outcome of a request whose cache get failed, by cases on the
store and the repopulation. -/
theorem handler_fallback_cases (sc : Strconv) (w : World) (e0 : GoError)
    (hget : (getProductsFromRedis w).1 = .error e0) :
    (∃ msg, w.query = .error msg ∧
      (getProductsHandler sc w).1 = ⟨500, .failure (.sqlFault msg)⟩ ∧
      (getProductsHandler sc w).2.keys = w.keys ∧
      requestCalls sc w = [Call.redisGet (ascii "Products"), Call.dbQuery selectProducts]) ∨
    (∃ rows e, w.query = .ok rows ∧
      parseProductsToString sc (scanRows rows (.items []) []).1 = .error e ∧
      (getProductsHandler sc w).1 = ⟨500, .failure e⟩ ∧
      (getProductsHandler sc w).2.keys = w.keys ∧
      requestCalls sc w = [Call.redisGet (ascii "Products"), Call.dbQuery selectProducts]) ∨
    (∃ rows s msg, w.query = .ok rows ∧
      parseProductsToString sc (scanRows rows (.items []) []).1 = .ok s ∧
      w.setFault = some msg ∧
      (getProductsHandler sc w).1 = ⟨500, .failure (.redisFault msg)⟩ ∧
      (getProductsHandler sc w).2.keys = w.keys ∧
      requestCalls sc w = [Call.redisGet (ascii "Products"), Call.dbQuery selectProducts,
        Call.redisSet (ascii "Products") s (10 * second)]) ∨
    (∃ rows s, w.query = .ok rows ∧
      parseProductsToString sc (scanRows rows (.items []) []).1 = .ok s ∧
      w.setFault = none ∧
      (getProductsHandler sc w).1 =
        ⟨200, .envelope ⟨(scanRows rows (.items []) []).1, ascii "Database"⟩⟩ ∧
      (getProductsHandler sc w).2.keys =
        (fun k => if k = ascii "Products" then some (s, w.now + 10 * second) else w.keys k) ∧
      requestCalls sc w = [Call.redisGet (ascii "Products"), Call.dbQuery selectProducts,
        Call.redisSet (ascii "Products") s (10 * second)]) := by
  cases hq : w.query with
  | error msg =>
    have h := handler_store_error sc w e0 msg hget hq
    refine Or.inl ⟨msg, rfl, ?_, ?_, ?_⟩
    · rw [h]
    · rw [h]
    · exact requestCalls_eq sc w _ (by rw [h])
  | ok rows =>
    cases hp : parseProductsToString sc (scanRows rows (.items []) []).1 with
    | error e =>
      have h := handler_encode_error sc w e0 e rows hget hq hp
      refine Or.inr (Or.inl ⟨rows, e, rfl, hp, ?_, ?_, ?_⟩)
      · rw [h]
      · rw [h]
      · exact requestCalls_eq sc w _ (by rw [h])
    | ok s =>
      cases hs : w.setFault with
      | some msg =>
        have h := handler_set_error sc w e0 rows s msg hget hq hp hs
        refine Or.inr (Or.inr (Or.inl ⟨rows, s, msg, rfl, hp, rfl, ?_, ?_, ?_⟩))
        · rw [h]
        · rw [h]
        · exact requestCalls_eq sc w _ (by rw [h])
      | none =>
        have h := handler_repopulated sc w e0 rows s hget hq hp hs
        refine Or.inr (Or.inr (Or.inr ⟨rows, s, rfl, hp, rfl, ?_, ?_, ?_⟩))
        · rw [h]
        · rw [h]
        · exact requestCalls_eq sc w _ (by rw [h])

/-- C9: two requests that differ only in how the cache get failed, one
with a Miss and one with any other cache error, get the same status and
body and make the same calls with the same arguments; both go on to query
the store, and a 500 then always comes from the store fetch or the
repopulation failing, never from the cache get itself. -/
theorem C9_miss_and_cache_error_alike (sc : Strconv) (w1 w2 : World) (e : GoError)
    (hq : w1.query = w2.query) (hs : w1.setFault = w2.setFault)
    (h1 : (getProductsFromRedis w1).1 = .error .redisNil)
    (h2 : (getProductsFromRedis w2).1 = .error e) :
    (getProductsHandler sc w1).1 = (getProductsHandler sc w2).1 ∧
    requestCalls sc w1 = requestCalls sc w2 ∧
    Call.dbQuery selectProducts ∈ requestCalls sc w1 ∧
    Call.dbQuery selectProducts ∈ requestCalls sc w2 ∧
    ((getProductsHandler sc w2).1.status = 500 →
      (∃ e1, (getProductsFromDB (getProductsFromRedis w2).2).1 = .error e1) ∨
      (∃ x, (getProductsFromDB (getProductsFromRedis w2).2).1 = .ok x ∧
        ((∃ e1, parseProductsToString sc x = .error e1) ∨ w2.setFault ≠ none))) := by
  have hdb : (getProductsFromDB (getProductsFromRedis w2).2).1 =
      match w2.query with
      | .error msg => .error (.sqlFault msg)
      | .ok rows => .ok (scanRows rows (.items []) []).1 := by
    rw [getProductsFromDB_fst, getProductsFromRedis_eq w2]
  rcases handler_fallback_cases sc w2 e h2 with
    ⟨msg, q, r, _, c⟩ | ⟨rows, e1, q, p, r, _, c⟩ | ⟨rows, s, msg, q, p, f, r, _, c⟩ |
    ⟨rows, s, q, p, f, r, _, c⟩
  · rw [handler_store_error sc w1 _ msg h1 (hq.trans q), r, c,
      requestCalls_eq sc w1 _ (by rw [handler_store_error sc w1 _ msg h1 (hq.trans q)])]
    refine ⟨rfl, rfl, by simp, by simp, fun _ => ?_⟩
    rw [hdb, q]
    exact Or.inl ⟨_, rfl⟩
  · rw [handler_encode_error sc w1 _ e1 rows h1 (hq.trans q) p, r, c,
      requestCalls_eq sc w1 _ (by rw [handler_encode_error sc w1 _ e1 rows h1 (hq.trans q) p])]
    refine ⟨rfl, rfl, by simp, by simp, fun _ => ?_⟩
    rw [hdb, q]
    exact Or.inr ⟨_, rfl, Or.inl ⟨e1, p⟩⟩
  · rw [handler_set_error sc w1 _ rows s msg h1 (hq.trans q) p (hs.trans f), r, c,
      requestCalls_eq sc w1 _
        (by rw [handler_set_error sc w1 _ rows s msg h1 (hq.trans q) p (hs.trans f)])]
    refine ⟨rfl, rfl, by simp, by simp, fun _ => ?_⟩
    rw [hdb, q]
    exact Or.inr ⟨_, rfl, Or.inr (by simp [f])⟩
  · rw [handler_repopulated sc w1 _ rows s h1 (hq.trans q) p (hs.trans f), r, c,
      requestCalls_eq sc w1 _
        (by rw [handler_repopulated sc w1 _ rows s h1 (hq.trans q) p (hs.trans f)])]
    refine ⟨rfl, rfl, by simp, by simp, fun h => ?_⟩
    simp at h

theorem handler_hit_calls (sc : Strconv) (w : World) (s : GoString)
    (hget : (getProductsFromRedis w).1 = .ok s) :
    requestCalls sc w = [Call.redisGet (ascii "Products")] ∧
    (getProductsHandler sc w).2.keys = w.keys := by
  have h := handler_hit sc w s hget
  exact ⟨requestCalls_eq sc w _ (by rw [h]), by rw [h]⟩

/-- C10: (1) every cache set a request makes is a set of the key
`Products` with a time-to-live of 10 seconds (10^10 ns), made after the
cache get failed and the store fetch returned a collection, whose encoding
is the value set; (2) a request leaves the cache as it was unless it made
such a set, which then holds until 10 seconds after the request;
(3) a request served from the cache makes no cache set and leaves the
cache, expiry included, as it was; (4) a request arriving when the entry
written at `t0` is 10 seconds old or older finds no entry, queries the
store, answers any envelope with source `Database`, and answers 200 with
source `Database` whenever the store fetch and the repopulation succeed. -/
theorem C10_cache_writes_and_expiry (sc : Strconv) :
    (∀ w k v t, Call.redisSet k v t ∈ requestCalls sc w →
      k = ascii "Products" ∧ t = 10 * second ∧ t = 10000000000 ∧
      (∃ e, (getProductsFromRedis w).1 = .error e) ∧
      ∃ x, (getProductsFromDB (getProductsFromRedis w).2).1 = .ok x ∧
        parseProductsToString sc x = .ok v) ∧
    (∀ w, (getProductsHandler sc w).2.keys = w.keys ∨
      ∃ v, Call.redisSet (ascii "Products") v (10 * second) ∈ requestCalls sc w ∧
        (getProductsHandler sc w).2.keys =
          fun k => if k = ascii "Products" then some (v, w.now + 10 * second) else w.keys k) ∧
    (∀ w s, (getProductsFromRedis w).1 = .ok s →
      (∀ k v t, Call.redisSet k v t ∉ requestCalls sc w) ∧
      (getProductsHandler sc w).2.keys = w.keys) ∧
    (∀ w v t0, w.keys (ascii "Products") = some (v, t0 + 10 * second) →
      t0 + 10 * second ≤ w.now →
      (∃ e, (getProductsFromRedis w).1 = .error e) ∧
      Call.dbQuery selectProducts ∈ requestCalls sc w ∧
      (∀ r, (getProductsHandler sc w).1.body = .envelope r → r.Source = ascii "Database") ∧
      (∀ x s, (getProductsFromDB (getProductsFromRedis w).2).1 = .ok x →
        parseProductsToString sc x = .ok s → w.setFault = none →
        (getProductsHandler sc w).1 = ⟨200, .envelope ⟨x, ascii "Database"⟩⟩)) := by
  have key : ∀ (w : World) (e : GoError), (getProductsFromRedis w).1 = .error e →
      (∀ k v t, Call.redisSet k v t ∈ requestCalls sc w →
        k = ascii "Products" ∧ t = 10 * second ∧ t = 10000000000 ∧
        ∃ x, (getProductsFromDB (getProductsFromRedis w).2).1 = .ok x ∧
          parseProductsToString sc x = .ok v) ∧
      ((getProductsHandler sc w).2.keys = w.keys ∨
        ∃ v, Call.redisSet (ascii "Products") v (10 * second) ∈ requestCalls sc w ∧
          (getProductsHandler sc w).2.keys =
            fun k => if k = ascii "Products" then some (v, w.now + 10 * second) else w.keys k) ∧
      Call.dbQuery selectProducts ∈ requestCalls sc w ∧
      (∀ r, (getProductsHandler sc w).1.body = .envelope r → r.Source = ascii "Database") ∧
      (∀ x s, (getProductsFromDB (getProductsFromRedis w).2).1 = .ok x →
        parseProductsToString sc x = .ok s → w.setFault = none →
        (getProductsHandler sc w).1 = ⟨200, .envelope ⟨x, ascii "Database"⟩⟩) := by
    intro w e hget
    have hdb : (getProductsFromDB (getProductsFromRedis w).2).1 =
        match w.query with
        | .error msg => .error (.sqlFault msg)
        | .ok rows => .ok (scanRows rows (.items []) []).1 := by
      rw [getProductsFromDB_fst, getProductsFromRedis_eq w]
    rw [hdb]
    rcases handler_fallback_cases sc w e hget with
      ⟨msg, q, r, k, c⟩ | ⟨rows, e1, q, p, r, k, c⟩ | ⟨rows, s, msg, q, p, f, r, k, c⟩ |
      ⟨rows, s, q, p, f, r, k, c⟩
    · rw [c, r, q]
      exact ⟨by simp, Or.inl k, by simp, by simp, by simp⟩
    · rw [c, r, q]
      refine ⟨by simp, Or.inl k, by simp, by simp, ?_⟩
      intro x s hx hs
      simp only [Except.ok.injEq] at hx
      rw [← hx, p] at hs
      simp at hs
    · rw [c, r, q]
      refine ⟨?_, Or.inl k, by simp, by simp, ?_⟩
      · intro k1 v t hm
        simp at hm
        obtain ⟨rfl, rfl, rfl⟩ := hm
        exact ⟨rfl, rfl, by decide, _, rfl, p⟩
      · intro x s1 _ _ hf
        rw [f] at hf
        simp at hf
    · rw [c, r, q]
      refine ⟨?_, Or.inr ⟨s, by simp, k⟩, by simp, by simp, ?_⟩
      · intro k1 v t hm
        simp at hm
        obtain ⟨rfl, rfl, rfl⟩ := hm
        exact ⟨rfl, rfl, by decide, _, rfl, p⟩
      · intro x s1 hx _ _
        simp only [Except.ok.injEq] at hx
        rw [hx]
  refine ⟨?_, ?_, ?_, ?_⟩
  · intro w k v t hm
    cases hget : (getProductsFromRedis w).1 with
    | ok s =>
      rw [(handler_hit_calls sc w s hget).1] at hm
      simp at hm
    | error e =>
      obtain ⟨h1, _⟩ := key w e hget
      obtain ⟨a, b, c, d⟩ := h1 k v t hm
      exact ⟨a, b, c, ⟨e, rfl⟩, d⟩
  · intro w
    cases hget : (getProductsFromRedis w).1 with
    | ok s => exact Or.inl (handler_hit_calls sc w s hget).2
    | error e => exact (key w e hget).2.1
  · intro w s hget
    refine ⟨?_, (handler_hit_calls sc w s hget).2⟩
    intro k v t hm
    rw [(handler_hit_calls sc w s hget).1] at hm
    simp at hm
  · intro w v t0 hk hexp
    have hget : ∃ e, (getProductsFromRedis w).1 = .error e := by
      rw [getProductsFromRedis_fst, hk]
      cases w.getFault with
      | some msg => exact ⟨_, rfl⟩
      | none =>
        have : ¬ w.now < t0 + 10 * second := by omega
        simp [this]
    obtain ⟨e, he⟩ := hget
    obtain ⟨_, _, h3, h4, h5⟩ := key w e he
    exact ⟨⟨e, he⟩, h3, h4, h5⟩

/-! ## UTF-8 -/

/-- A well-formed multi-byte encoding at the head of a string: its width,
its bytes, and that decoding looks at those bytes only. -/
theorem decodeRune_valid (b : Nat) (rest : GoString) (hb : 128 ≤ b)
    (h : ¬ ((decodeRune (b :: rest)).1 = 65533 ∧ (decodeRune (b :: rest)).2 = 1)) :
    2 ≤ (decodeRune (b :: rest)).2 ∧
    (decodeRune (b :: rest)).2 ≤ (b :: rest).length ∧
    encodeRune (decodeRune (b :: rest)).1 = (b :: rest).take (decodeRune (b :: rest)).2 ∧
    (∀ c ∈ (b :: rest).take (decodeRune (b :: rest)).2, 128 ≤ c) ∧
    (∀ tail, decodeRune ((b :: rest).take (decodeRune (b :: rest)).2 ++ tail) =
      decodeRune (b :: rest)) := by
  unfold decodeRune at h ⊢
  have h128 : ¬ b < 128 := by omega
  simp only [h128, if_false] at h ⊢
  by_cases h194 : b < 194
  · simp [h194] at h
  simp only [h194, if_false] at h ⊢
  by_cases h224 : b < 224
  · simp only [h224, if_true] at h ⊢
    match rest, h with
    | [], h => simp at h
    | b1 :: r, h =>
      by_cases hc : isCont b1 = true
      · simp only [hc, if_true] at h ⊢
        simp only [isCont, Bool.and_eq_true, decide_eq_true_eq] at hc
        refine ⟨by simp, by simp, ?_, ?_, ?_⟩
        · simp only [encodeRune, List.take_succ_cons, List.take_zero]
          have : ¬ (b % 32 * 64 + b1 % 64 < 128) := by omega
          have h2 : b % 32 * 64 + b1 % 64 < 2048 := by omega
          simp only [this, h2, if_true, if_false]
          congr 1
          · omega
          · congr 1; omega
        · intro c hcm
          simp at hcm
          omega
        · intro tail
          simp [h128, h194, h224, isCont, hc.1, hc.2]
      · simp [hc] at h
  simp only [h224, if_false] at h ⊢
  by_cases h240 : b < 240
  · simp only [h240, if_true] at h ⊢
    match rest, h with
    | [], h => simp at h
    | [_], h => simp at h
    | b1 :: b2 :: r, h =>
      by_cases hc : (decide ((if b = 224 then 160 else 128) ≤ b1) &&
          decide (b1 ≤ (if b = 237 then 159 else 191)) && isCont b2) = true
      · simp only [hc, if_true] at h ⊢
        have hc1 := hc
        simp only [isCont, Bool.and_eq_true, decide_eq_true_eq] at hc1
        obtain ⟨⟨l1, l2⟩, l3, l4⟩ := hc1
        have l1a : 128 ≤ b1 := by split at l1 <;> omega
        have l2a : b1 ≤ 191 := by split at l2 <;> omega
        have l1b : b = 224 → 160 ≤ b1 := by intro hh; simpa [hh] using l1
        have l2b : b = 237 → b1 ≤ 159 := by intro hh; simpa [hh] using l2
        refine ⟨by simp, by simp, ?_, ?_, ?_⟩
        · simp only [encodeRune, List.take_succ_cons, List.take_zero]
          have t1 : ¬ (b % 16 * 4096 + b1 % 64 * 64 + b2 % 64 < 128) := by omega
          have t2 : ¬ (b % 16 * 4096 + b1 % 64 * 64 + b2 % 64 < 2048) := by omega
          have t3 : ¬ (1114111 < b % 16 * 4096 + b1 % 64 * 64 + b2 % 64 ∨
              (55296 ≤ b % 16 * 4096 + b1 % 64 * 64 + b2 % 64 ∧
                b % 16 * 4096 + b1 % 64 * 64 + b2 % 64 ≤ 57343)) := by omega
          have t4 : b % 16 * 4096 + b1 % 64 * 64 + b2 % 64 < 65536 := by omega
          simp only [t1, t2, t3, t4, if_true, if_false]
          congr 1
          · omega
          · congr 1
            · omega
            · congr 1; omega
        · intro c hcm
          simp at hcm
          omega
        · intro tail
          simp only [List.take_succ_cons, List.take_zero, List.cons_append, List.nil_append,
            decodeRune, h128, h194, h224, h240, if_true, if_false, hc]
      · simp [hc] at h
  simp only [h240, if_false] at h ⊢
  by_cases h245 : b < 245
  · simp only [h245, if_true] at h ⊢
    match rest, h with
    | [], h => simp at h
    | [_], h => simp at h
    | [_, _], h => simp at h
    | b1 :: b2 :: b3 :: r, h =>
      by_cases hc : (decide ((if b = 240 then 144 else 128) ≤ b1) &&
          decide (b1 ≤ (if b = 244 then 143 else 191)) && isCont b2 && isCont b3) = true
      · simp only [hc, if_true] at h ⊢
        have hc1 := hc
        simp only [isCont, Bool.and_eq_true, decide_eq_true_eq] at hc1
        obtain ⟨⟨⟨l1, l2⟩, l3, l4⟩, l5, l6⟩ := hc1
        have l1a : 128 ≤ b1 := by split at l1 <;> omega
        have l2a : b1 ≤ 191 := by split at l2 <;> omega
        have l1b : b = 240 → 144 ≤ b1 := by intro hh; simpa [hh] using l1
        have l2b : b = 244 → b1 ≤ 143 := by intro hh; simpa [hh] using l2
        refine ⟨by simp, by simp, ?_, ?_, ?_⟩
        · simp only [encodeRune, List.take_succ_cons, List.take_zero]
          have t1 : ¬ (b % 8 * 262144 + b1 % 64 * 4096 + b2 % 64 * 64 + b3 % 64 < 128) := by
            omega
          have t2 : ¬ (b % 8 * 262144 + b1 % 64 * 4096 + b2 % 64 * 64 + b3 % 64 < 2048) := by
            omega
          have t3 : ¬ (1114111 < b % 8 * 262144 + b1 % 64 * 4096 + b2 % 64 * 64 + b3 % 64 ∨
              (55296 ≤ b % 8 * 262144 + b1 % 64 * 4096 + b2 % 64 * 64 + b3 % 64 ∧
                b % 8 * 262144 + b1 % 64 * 4096 + b2 % 64 * 64 + b3 % 64 ≤ 57343)) := by omega
          have t4 : ¬ (b % 8 * 262144 + b1 % 64 * 4096 + b2 % 64 * 64 + b3 % 64 < 65536) := by
            omega
          simp only [t1, t2, t3, t4, if_true, if_false]
          congr 1
          · omega
          · congr 1
            · omega
            · congr 1
              · omega
              · congr 1; omega
        · intro c hcm
          simp at hcm
          omega
        · intro tail
          simp only [List.take_succ_cons, List.take_zero, List.cons_append, List.nil_append,
            decodeRune, h128, h194, h224, h240, h245, if_true, if_false, hc]
      · simp [hc] at h
  · simp [h245] at h

/-! ## String literals -/

theorem consTok_consTok (a b : GoString) (x : Option (GoString × GoString)) :
    consTok a (consTok b x) = consTok (a ++ b) x := by
  cases x with
  | none => rfl
  | some p => obtain ⟨t, r⟩ := p; simp [consTok]

theorem consTok_some (a t r : GoString) : consTok a (some (t, r)) = some (a ++ t, r) := rfl

/-- Bytes that need no escape are scanned as they are. -/
theorem scanString_plain (l t : GoString) (h : ∀ c ∈ l, 32 ≤ c ∧ c ≠ 34 ∧ c ≠ 92) :
    scanString (l ++ t) = consTok l (scanString t) := by
  induction l with
  | nil =>
    rw [List.nil_append]
    cases scanString t with
    | none => rfl
    | some p => obtain ⟨a, b⟩ := p; rfl
  | cons c l ih =>
    have hc := h c (by simp)
    have h1 : ¬ c = 34 := hc.2.1
    have h2 : ¬ c = 92 := hc.2.2
    have h3 : ¬ c < 32 := by omega
    rw [List.cons_append, scanString.eq_def]
    simp only [h1, h2, h3, if_false]
    rw [ih (fun c hm => h c (by simp [hm])), consTok_consTok]
    rfl

theorem hexDigit_isHex (k : Nat) (h : k < 16) : isHex (hexDigit k) = true := by
  unfold hexDigit isHex isDigit
  by_cases h10 : k < 10
  · simp [h10]; omega
  · simp [h10]; omega

theorem hexVal_hexDigit (k : Nat) (h : k < 16) : hexVal (hexDigit k) = some k := by
  unfold hexDigit hexVal
  by_cases h10 : k < 10
  · simp [h10]; omega
  · simp [h10]
    have : ¬ (48 ≤ 87 + k ∧ 87 + k ≤ 57) := by omega
    simp [this]
    omega

theorem scanString_escape (e c : Nat) (t : GoString)
    (h : c = 98 ∨ c = 102 ∨ c = 110 ∨ c = 114 ∨ c = 116 ∨ c = 92 ∨ c = 47 ∨ c = 34)
    (he : e = 92) :
    scanString ([e, c] ++ t) = consTok [92, c] (scanString t) := by
  subst he
  have h117 : ¬ c = 117 := by omega
  show scanString (92 :: c :: t) = _
  rw [scanString.eq_def]
  simp [h117, h]

theorem scanString_u4 (h1 h2 h3 h4 : Nat) (t : GoString)
    (x1 : isHex h1 = true) (x2 : isHex h2 = true) (x3 : isHex h3 = true)
    (x4 : isHex h4 = true) :
    scanString ([92, 117, h1, h2, h3, h4] ++ t) =
      consTok [92, 117, h1, h2, h3, h4] (scanString t) := by
  rw [scanString.eq_def]
  simp [x1, x2, x3, x4]

theorem scanString_quote (t : GoString) : scanString (34 :: t) = some ([], t) := by
  rw [scanString.eq_def]
  simp

theorem scanString_escapeByte (b : Nat) (t : GoString) (hb : b < 128) :
    scanString (escapeByte b ++ t) = consTok (escapeByte b) (scanString t) := by
  unfold escapeByte
  by_cases e1 : b = 92 ∨ b = 34
  · simp only [e1, if_true]
    exact scanString_escape 92 b _ (by omega) rfl
  simp only [e1, if_false]
  by_cases e2 : b = 8
  · simp only [e2, if_true]
    exact scanString_escape 92 98 _ (by omega) rfl
  simp only [e2, if_false]
  by_cases e3 : b = 12
  · simp only [e3, if_true]
    exact scanString_escape 92 102 _ (by omega) rfl
  simp only [e3, if_false]
  by_cases e4 : b = 10
  · simp only [e4, if_true]
    exact scanString_escape 92 110 _ (by omega) rfl
  simp only [e4, if_false]
  by_cases e5 : b = 13
  · simp only [e5, if_true]
    exact scanString_escape 92 114 _ (by omega) rfl
  simp only [e5, if_false]
  by_cases e6 : b = 9
  · simp only [e6, if_true]
    exact scanString_escape 92 116 _ (by omega) rfl
  simp only [e6, if_false]
  exact scanString_u4 48 48 _ _ _ (by decide) (by decide)
    (hexDigit_isHex _ (by omega)) (hexDigit_isHex _ (by omega))

/-- The body `appendString` writes is scanned back whole, up to the
closing quote. -/
theorem scanString_body (n : Nat) (name rest : GoString) :
    scanString (appendStringBody n name ++ 34 :: rest) =
      some (appendStringBody n name, rest) := by
  induction n generalizing name with
  | zero => cases name <;> simp [appendStringBody, scanString_quote]
  | succ n ih =>
    cases name with
    | nil => simp [appendStringBody, scanString_quote]
    | cons b r =>
      simp only [appendStringBody]
      by_cases hb : b < 128
      · simp only [hb, if_true]
        by_cases hs : htmlSafe b = true
        · simp only [hs, if_true]
          have hp : ∀ c ∈ [b], 32 ≤ c ∧ c ≠ 34 ∧ c ≠ 92 := by
            intro c hc
            simp at hc
            subst hc
            simp [htmlSafe] at hs
            omega
          rw [List.append_assoc, scanString_plain [b] _ hp, ih, consTok_some]
        · simp only [hs, Bool.false_eq_true, if_false]
          rw [List.append_assoc, scanString_escapeByte b _ hb, ih, consTok_some]
      · simp only [hb, if_false]
        by_cases hinv : (decodeRune (b :: r)).1 = 65533 ∧ (decodeRune (b :: r)).2 = 1
        · simp only [hinv, and_self, if_true]
          rw [List.append_assoc, scanString_u4 102 102 102 100 _ (by decide) (by decide)
            (by decide) (by decide), ih, consTok_some]
        · simp only [hinv, if_false]
          by_cases hls : (decodeRune (b :: r)).1 = 8232 ∨ (decodeRune (b :: r)).1 = 8233
          · simp only [hls, if_true]
            rw [List.append_assoc, scanString_u4 50 48 50 _ _ (by decide) (by decide)
              (by decide) (hexDigit_isHex _ (by omega)), ih, consTok_some]
          · simp only [hls, if_false]
            obtain ⟨_, _, _, hhigh, _⟩ := decodeRune_valid b r (by omega) hinv
            rw [List.append_assoc, scanString_plain _ _
              (fun c hc => by have := hhigh c hc; omega), ih, consTok_some]

theorem consOut_some (a t : GoString) : consOut a (some t) = some (a ++ t) := rfl

theorem unquoteAux_step (m c : Nat) (t out rest1 : GoString)
    (h : unquoteStep c t = some (out, rest1)) :
    unquoteAux (m + 1) (c :: t) = consOut out (unquoteAux m rest1) := by
  rw [unquoteAux, h]

theorem unquoteAux_plain (m c : Nat) (t : GoString) (h1 : 32 ≤ c) (h2 : c ≠ 34) (h3 : c ≠ 92)
    (h4 : c < 128) : unquoteAux (m + 1) ([c] ++ t) = consOut [c] (unquoteAux m t) := by
  apply unquoteAux_step
  unfold unquoteStep
  have h5 : ¬ (c = 34 ∨ c < 32) := by omega
  simp [h3, h5, h4]

theorem getu4_eq (h1 h2 h3 h4 a b c d : Nat) (t : GoString)
    (x1 : hexVal h1 = some a) (x2 : hexVal h2 = some b) (x3 : hexVal h3 = some c)
    (x4 : hexVal h4 = some d) :
    getu4 (92 :: 117 :: h1 :: h2 :: h3 :: h4 :: t) = some (((a * 16 + b) * 16 + c) * 16 + d) := by
  simp [getu4, x1, x2, x3, x4]

theorem unquoteAux_u4 (m h1 h2 h3 h4 rr : Nat) (t : GoString)
    (hg : getu4 (92 :: 117 :: h1 :: h2 :: h3 :: h4 :: t) = some rr)
    (hs : ¬ (55296 ≤ rr ∧ rr < 57344)) :
    unquoteAux (m + 1) ([92, 117, h1, h2, h3, h4] ++ t) =
      consOut (encodeRune rr) (unquoteAux m t) := by
  apply unquoteAux_step
  unfold unquoteStep
  simp [hg, hs]

theorem unquoteAux_simple (m e v : Nat) (t : GoString)
    (h : (e = 34 ∨ e = 92) ∧ v = e ∨ e = 98 ∧ v = 8 ∨ e = 102 ∧ v = 12 ∨ e = 110 ∧ v = 10 ∨
      e = 114 ∧ v = 13 ∨ e = 116 ∧ v = 9) :
    unquoteAux (m + 1) ([92, e] ++ t) = consOut [v] (unquoteAux m t) := by
  apply unquoteAux_step
  unfold unquoteStep
  rcases h with ⟨h | h, rfl⟩ | ⟨rfl, rfl⟩ | ⟨rfl, rfl⟩ | ⟨rfl, rfl⟩ | ⟨rfl, rfl⟩ | ⟨rfl, rfl⟩
  · simp [h]
  · simp [h]
  all_goals simp

theorem unquoteAux_escapeByte (m b : Nat) (t : GoString) (hb : b < 128) :
    unquoteAux (m + 1) (escapeByte b ++ t) = consOut [b] (unquoteAux m t) := by
  unfold escapeByte
  by_cases e1 : b = 92 ∨ b = 34
  · simp only [e1, if_true]
    exact unquoteAux_simple m b b t (Or.inl ⟨by omega, rfl⟩)
  simp only [e1, if_false]
  by_cases e2 : b = 8
  · simp only [e2, if_true]
    exact unquoteAux_simple m 98 8 t (by omega)
  simp only [e2, if_false]
  by_cases e3 : b = 12
  · simp only [e3, if_true]
    exact unquoteAux_simple m 102 12 t (by omega)
  simp only [e3, if_false]
  by_cases e4 : b = 10
  · simp only [e4, if_true]
    exact unquoteAux_simple m 110 10 t (by omega)
  simp only [e4, if_false]
  by_cases e5 : b = 13
  · simp only [e5, if_true]
    exact unquoteAux_simple m 114 13 t (by omega)
  simp only [e5, if_false]
  by_cases e6 : b = 9
  · simp only [e6, if_true]
    exact unquoteAux_simple m 116 9 t (by omega)
  simp only [e6, if_false]
  have hg := getu4_eq 48 48 (hexDigit (b / 16)) (hexDigit (b % 16)) 0 0 (b / 16) (b % 16) t
    (by decide) (by decide) (hexVal_hexDigit _ (by omega)) (hexVal_hexDigit _ (by omega))
  have hv : ((0 * 16 + 0) * 16 + b / 16) * 16 + b % 16 = b := by omega
  rw [hv] at hg
  rw [unquoteAux_u4 m _ _ _ _ b t hg (by omega)]
  simp [encodeRune, hb]

theorem unquoteAux_high (m c : Nat) (t : GoString) (hc : 128 ≤ c) :
    unquoteAux (m + 1) (c :: t) =
      consOut (encodeRune (decodeRune (c :: t)).1)
        (unquoteAux m ((c :: t).drop (decodeRune (c :: t)).2)) := by
  apply unquoteAux_step
  unfold unquoteStep
  have h1 : ¬ c = 92 := by omega
  have h2 : ¬ (c = 34 ∨ c < 32) := by omega
  have h3 : ¬ c < 128 := by omega
  simp [h1, h2, h3]

theorem decodeRune_ascii (b : Nat) (r : GoString) (hb : b < 128) :
    decodeRune (b :: r) = (b, 1) := by
  simp [decodeRune, hb]

theorem escapeByte_length_pos (b : Nat) : 1 ≤ (escapeByte b).length := by
  unfold escapeByte
  split_ifs <;> simp

/-- For well-formed UTF-8, `unquoteBytes` gives back the string whose
body `appendString` wrote. -/
theorem unquoteAux_body (n : Nat) (name : GoString) (hv : validUTF8Aux n name = true) (m : Nat)
    (hm : (appendStringBody n name).length ≤ m) :
    unquoteAux m (appendStringBody n name) = some name := by
  induction n generalizing name m with
  | zero =>
    cases name with
    | nil => simp [appendStringBody, unquoteAux]
    | cons b r => simp [validUTF8Aux] at hv
  | succ n ih =>
    cases name with
    | nil => simp [appendStringBody, unquoteAux]
    | cons b r =>
      simp only [validUTF8Aux] at hv
      simp only [appendStringBody] at hm ⊢
      by_cases hb : b < 128
      · simp only [hb, if_true] at hm ⊢
        rw [decodeRune_ascii b r hb] at hv
        have hne : b ≠ 65533 := by omega
        simp only [hne, false_and, if_false, List.drop_succ_cons, List.drop_zero] at hv
        by_cases hs : htmlSafe b = true
        · simp only [hs, if_true] at hm ⊢
          cases m with
          | zero => simp at hm
          | succ m =>
            have hp : 32 ≤ b ∧ b ≠ 34 ∧ b ≠ 92 := by
              simp [htmlSafe] at hs
              omega
            rw [unquoteAux_plain m b _ hp.1 hp.2.1 hp.2.2 hb,
              ih r hv m (by simp at hm; omega), consOut_some]
            rfl
        · simp only [hs, Bool.false_eq_true, if_false] at hm ⊢
          cases m with
          | zero =>
            have := escapeByte_length_pos b
            rw [List.length_append] at hm
            omega
          | succ m =>
            have := escapeByte_length_pos b
            rw [unquoteAux_escapeByte m b _ hb,
              ih r hv m (by simp at hm; omega), consOut_some]
            rfl
      · simp only [hb, if_false] at hm ⊢
        by_cases hinv : (decodeRune (b :: r)).1 = 65533 ∧ (decodeRune (b :: r)).2 = 1
        · simp [hinv] at hv
        · simp only [hinv, if_false] at hv hm ⊢
          obtain ⟨h2, hlen, henc, hhigh, hdec⟩ := decodeRune_valid b r (by omega) hinv
          by_cases hls : (decodeRune (b :: r)).1 = 8232 ∨ (decodeRune (b :: r)).1 = 8233
          · simp only [hls, if_true] at hm ⊢
            cases m with
            | zero => simp at hm
            | succ m =>
              have hg := getu4_eq 50 48 50 (hexDigit ((decodeRune (b :: r)).1 % 16)) 2 0 2
                ((decodeRune (b :: r)).1 % 16)
                (appendStringBody n (List.drop (decodeRune (b :: r)).2 (b :: r)))
                (by decide) (by decide) (by decide) (hexVal_hexDigit _ (by omega))
              have hval : ((2 * 16 + 0) * 16 + 2) * 16 + (decodeRune (b :: r)).1 % 16 =
                  (decodeRune (b :: r)).1 := by omega
              rw [hval] at hg
              rw [unquoteAux_u4 m _ _ _ _ _ _ hg (by omega),
                ih _ hv m (by simp at hm; omega), consOut_some, henc, List.take_append_drop]
          · simp only [hls, if_false] at hm ⊢
            cases m with
            | zero =>
              simp only [List.length_append, List.length_take] at hm
              simp only [List.length_cons] at hlen hm
              omega
            | succ m =>
              have hcons : List.take (decodeRune (b :: r)).2 (b :: r) ++
                  appendStringBody n (List.drop (decodeRune (b :: r)).2 (b :: r)) =
                  b :: ((List.take (decodeRune (b :: r)).2 (b :: r)).tail ++
                    appendStringBody n (List.drop (decodeRune (b :: r)).2 (b :: r))) := by
                obtain ⟨k, hk⟩ : ∃ k, (decodeRune (b :: r)).2 = k + 1 := ⟨_, (Nat.sub_add_cancel
                  (by omega : 1 ≤ (decodeRune (b :: r)).2)).symm⟩
                rw [hk]
                simp
              have hd := hdec (appendStringBody n (List.drop (decodeRune (b :: r)).2 (b :: r)))
              rw [hcons] at hd ⊢
              rw [unquoteAux_high m b _ (by omega), hd, ← hcons, List.drop_left' (by
                rw [List.length_take]; exact Nat.min_eq_left hlen), ih _ hv m (by simp at hm; omega), consOut_some, henc,
                List.take_append_drop]

/-! ## Numbers -/

theorem formatNatAux_acc (fuel n : Nat) (acc : GoString) :
    formatNatAux fuel n acc = formatNatAux fuel n [] ++ acc := by
  induction fuel generalizing n acc with
  | zero => simp [formatNatAux]
  | succ fuel ih =>
    simp only [formatNatAux]
    by_cases h : n < 10
    · simp [h]
    · simp only [h, if_false]
      rw [ih (n / 10) ((48 + n % 10) :: acc), ih (n / 10) [48 + n % 10]]
      simp

theorem formatNatAux_fuel (f1 f2 n : Nat) (h1 : n < f1) (h2 : n < f2) :
    formatNatAux f1 n [] = formatNatAux f2 n [] := by
  induction f1 generalizing n f2 with
  | zero => omega
  | succ f1 ih =>
    cases f2 with
    | zero => omega
    | succ f2 =>
      simp only [formatNatAux]
      by_cases h : n < 10
      · simp [h]
      · simp only [h, if_false]
        rw [formatNatAux_acc f1, formatNatAux_acc f2,
          ih f2 (n / 10) (by omega) (by omega)]

theorem formatNat_lt (n : Nat) (h : n < 10) : formatNat n = [48 + n] := by
  simp [formatNat, formatNatAux, h]

theorem formatNat_ge (n : Nat) (h : 10 ≤ n) :
    formatNat n = formatNat (n / 10) ++ [48 + n % 10] := by
  have h1 : ¬ n < 10 := by omega
  have h2 : formatNatAux (n + 1) n [] = formatNatAux n (n / 10) [48 + n % 10] := by
    simp [formatNatAux, h1]
  unfold formatNat
  rw [h2, formatNatAux_acc, formatNatAux_fuel n (n / 10 + 1) (n / 10) (by omega) (by omega)]

theorem parseDigits_append (l : GoString) (d a : Nat) (hd : isDigit d = true) :
    parseDigits (l ++ [d]) a =
      match parseDigits l a with
      | some v => some (v * 10 + (d - 48))
      | none => none := by
  induction l generalizing a with
  | nil => simp [parseDigits, hd]
  | cons b l ih =>
    simp only [List.cons_append, parseDigits]
    by_cases hb : isDigit b = true
    · simp only [hb, if_true]
      exact ih _
    · simp [hb]

theorem isDigit_digit (k : Nat) (h : k < 10) : isDigit (48 + k) = true := by
  simp [isDigit]
  omega

theorem parseDigits_formatNat (n : Nat) : parseDigits (formatNat n) 0 = some n := by
  induction n using Nat.strong_induction_on with
  | _ n ih =>
    by_cases h : n < 10
    · rw [formatNat_lt n h]
      simp [parseDigits, isDigit_digit n h]
    · rw [formatNat_ge n (by omega), parseDigits_append _ _ _ (isDigit_digit _ (by omega)),
        ih (n / 10) (by omega)]
      simp
      omega

/-- The decimal text of a positive number: a non-zero digit, then digits. -/
theorem formatNat_shape (n : Nat) (hn : 0 < n) :
    ∃ d ds, formatNat n = d :: ds ∧ 49 ≤ d ∧ d ≤ 57 ∧ ∀ c ∈ ds, isDigit c = true := by
  induction n using Nat.strong_induction_on with
  | _ n ih =>
    by_cases h : n < 10
    · exact ⟨48 + n, [], formatNat_lt n h, by omega, by omega, by simp⟩
    · obtain ⟨d, ds, he, h1, h2, h3⟩ := ih (n / 10) (by omega) (by omega)
      refine ⟨d, ds ++ [48 + n % 10], ?_, h1, h2, ?_⟩
      · rw [formatNat_ge n (by omega), he]
        rfl
      · intro c hc
        rcases List.mem_append.mp hc with hc | hc
        · exact h3 c hc
        · simp at hc
          subst hc
          exact isDigit_digit _ (by omega)

theorem scanNumber_digits (ds : GoString) (h : ∀ c ∈ ds, isDigit c = true) :
    scanNumber .int ds = some (ds, []) := by
  induction ds with
  | nil => rfl
  | cons c ds ih =>
    have hc := h c (by simp)
    simp only [scanNumber, numStep, hc, if_true]
    rw [ih (fun c hm => h c (by simp [hm]))]
    rfl

theorem isDigit_of_range (d : Nat) (h1 : 49 ≤ d) (h2 : d ≤ 57) : isDigit d = true := by
  simp [isDigit]
  omega

/-- The text of an integer is a number of the JSON grammar. -/
theorem isNumberLit_formatInt (i : Int) : isNumberLit (formatInt i) = true := by
  unfold formatInt
  by_cases hneg : i < 0
  · simp only [hneg, if_true]
    obtain ⟨d, ds, he, h1, h2, h3⟩ := formatNat_shape i.natAbs (by omega)
    rw [he]
    have hd := isDigit_of_range d h1 h2
    have h48 : ¬ d = 48 := by omega
    simp [isNumberLit, numStart, scanNumber, numStep, h48, hd, scanNumber_digits ds h3, consTok]
  · simp only [hneg, if_false]
    by_cases hz : i.natAbs = 0
    · rw [hz]
      decide
    · obtain ⟨d, ds, he, h1, h2, h3⟩ := formatNat_shape i.natAbs (by omega)
      rw [he]
      have hd := isDigit_of_range d h1 h2
      have h48 : ¬ d = 48 := by omega
      have h45 : ¬ d = 45 := by omega
      simp [isNumberLit, numStart, h48, h45, hd, scanNumber_digits ds h3]

/-- Go `strconv.ParseInt` reads back what `strconv.AppendInt` wrote for a
64-bit integer. -/
theorem parseInt_formatInt (i : Int) (h : inInt64 i) : parseInt (formatInt i) = some i := by
  unfold inInt64 at h
  unfold formatInt
  by_cases hneg : i < 0
  · simp only [hneg, if_true]
    obtain ⟨d, ds, he, h1, h2, h3⟩ := formatNat_shape i.natAbs (by omega)
    have hp := parseDigits_formatNat i.natAbs
    rw [he] at hp
    rw [he]
    simp only [parseInt, if_true, hp]
    have : i.natAbs ≤ 9223372036854775808 := by omega
    simp only [this, if_true]
    congr 1
    omega
  · simp only [hneg, if_false]
    have hp := parseDigits_formatNat i.natAbs
    by_cases hz : i.natAbs = 0
    · have : i = 0 := by omega
      subst this
      decide
    · obtain ⟨d, ds, he, h1, h2, h3⟩ := formatNat_shape i.natAbs (by omega)
      rw [he] at hp
      rw [he]
      have h45 : ¬ d = 45 := by omega
      have h43 : ¬ d = 43 := by omega
      simp only [parseInt, h45, h43, if_false, hp, false_and]
      have : i.natAbs ≤ 9223372036854775807 := by omega
      simp only [this, if_true]
      congr 1
      omega

/-- A number that fills its text is scanned back whole when a byte that
cannot continue a number follows. -/
theorem scanNumber_append (st : NumState) (l tok : GoString) (c : Nat) (t : GoString)
    (h : scanNumber st l = some (tok, [])) (hc : ∀ s, numStep s c = none) :
    scanNumber st (l ++ c :: t) = some (l, c :: t) := by
  induction l generalizing st tok with
  | nil =>
    simp only [scanNumber] at h
    simp only [List.nil_append, scanNumber, hc]
    by_cases ha : numAccept st = true
    · simp [ha]
    · simp [ha] at h
  | cons b l ih =>
    simp only [scanNumber] at h
    simp only [List.cons_append, scanNumber]
    cases hs : numStep st b with
    | none =>
      simp only [hs] at h
      by_cases ha : numAccept st = true <;> simp [ha] at h
    | some st1 =>
      simp only [hs] at h ⊢
      cases hr : scanNumber st1 l with
      | none => simp [hr, consTok] at h
      | some p =>
        obtain ⟨tok1, r1⟩ := p
        simp only [hr, consTok] at h
        simp only [Option.some.injEq, Prod.mk.injEq] at h
        rw [h.2] at hr
        change consTok [b] (scanNumber st1 (l ++ c :: t)) = _
        rw [ih st1 tok1 hr]
        rfl

theorem numStep_terminator (c : Nat) (h : c = 44 ∨ c = 125 ∨ c = 93) (s : NumState) :
    numStep s c = none := by
  rcases h with rfl | rfl | rfl <;> cases s <;> decide

/-! ## Values -/

theorem skipSpace_id (b : Nat) (t : GoString) (h : isSpace b = false) :
    skipSpace (b :: t) = b :: t := by
  simp [skipSpace, h]

theorem parseValue_string (f d n : Nat) (name t : GoString) :
    parseValue (f + 1) d (34 :: (appendStringBody n name ++ 34 :: t)) =
      some (.string (appendStringBody n name), t) := by
  simp [parseValue, scanString_body]

theorem parseValue_number (f d : Nat) (lit : GoString) (c : Nat) (t : GoString)
    (h : isNumberLit lit = true) (hc : c = 44 ∨ c = 125 ∨ c = 93) :
    parseValue (f + 1) d (lit ++ c :: t) = some (.number lit, c :: t) := by
  cases lit with
  | nil => simp [isNumberLit] at h
  | cons b l =>
    simp only [isNumberLit] at h
    cases hs : numStart b with
    | none => simp [hs] at h
    | some st =>
      simp only [hs] at h
      cases hr : scanNumber st l with
      | none => simp [hr] at h
      | some p =>
        obtain ⟨tok, r⟩ := p
        cases r with
        | cons x y => simp [hr] at h
        | nil =>
          have hb : b = 45 ∨ (48 ≤ b ∧ b ≤ 57) := by
            unfold numStart isDigit at hs
            by_cases h1 : b = 45
            · exact Or.inl h1
            · by_cases h2 : b = 48
              · omega
              · simp [h1, h2] at hs
                omega
          have e1 : ¬ b = 123 := by omega
          have e2 : ¬ b = 91 := by omega
          have e3 : ¬ b = 34 := by omega
          have e4 : ¬ b = 116 := by omega
          have e5 : ¬ b = 102 := by omega
          have e6 : ¬ b = 110 := by omega
          rw [List.cons_append]
          simp only [parseValue, e1, e2, e3, e4, e5, e6, if_false, hs,
            scanNumber_append st l tok c t hr (numStep_terminator c hc)]

theorem scanString_key (key t : GoString) (h : ∀ c ∈ key, 32 ≤ c ∧ c ≠ 34 ∧ c ≠ 92) :
    scanString (key ++ 34 :: t) = some (key, t) := by
  rw [scanString_plain key _ h, scanString_quote, consTok_some, List.append_nil]

/-- One member followed by a comma. -/
theorem parseMembers_comma (f d : Nat) (key vt rest : GoString) (v : JValue)
    (acc : List (GoString × JValue))
    (hkey : ∀ c ∈ key, 32 ≤ c ∧ c ≠ 34 ∧ c ≠ 92)
    (hsp : skipSpace vt = vt)
    (hval : parseValue f d vt = some (v, 44 :: rest)) :
    parseMembers (f + 1) d (34 :: (key ++ 34 :: 58 :: vt)) acc =
      parseMembers f d (skipSpace rest) (acc ++ [(key, v)]) := by
  simp [parseMembers, scanString_key key _ hkey, skipSpace, isSpace, hsp, hval]

/-- The last member, followed by the closing brace. -/
theorem parseMembers_close (f d : Nat) (key vt rest : GoString) (v : JValue)
    (acc : List (GoString × JValue))
    (hkey : ∀ c ∈ key, 32 ≤ c ∧ c ≠ 34 ∧ c ≠ 92)
    (hsp : skipSpace vt = vt)
    (hval : parseValue f d vt = some (v, 125 :: rest)) :
    parseMembers (f + 1) d (34 :: (key ++ 34 :: 58 :: vt)) acc =
      some (.object (acc ++ [(key, v)]), rest) := by
  simp [parseMembers, scanString_key key _ hkey, skipSpace, isSpace, hsp, hval]

theorem isNumberLit_head (lit : GoString) (h : isNumberLit lit = true) :
    ∃ b l, lit = b :: l ∧ isSpace b = false ∧ b ≠ 125 ∧ b ≠ 93 := by
  cases lit with
  | nil => simp [isNumberLit] at h
  | cons b l =>
    refine ⟨b, l, rfl, ?_⟩
    simp only [isNumberLit] at h
    cases hs : numStart b with
    | none => simp [hs] at h
    | some st =>
      have hb : b = 45 ∨ (48 ≤ b ∧ b ≤ 57) := by
        unfold numStart isDigit at hs
        by_cases h1 : b = 45
        · exact Or.inl h1
        · by_cases h2 : b = 48
          · omega
          · simp [h1, h2] at hs
            omega
      refine ⟨?_, by omega, by omega⟩
      simp [isSpace]
      omega

theorem skipSpace_number (lit t : GoString) (h : isNumberLit lit = true) :
    skipSpace (lit ++ t) = lit ++ t := by
  obtain ⟨b, l, rfl, hb, _⟩ := isNumberLit_head lit h
  exact skipSpace_id b _ hb

/-- The text of a product, laid out member by member. -/
theorem encodeProduct_text (sc : Strconv) (p : Product) (text : GoString)
    (h : encodeProduct sc p = some text) (rest : GoString) :
    text ++ rest =
      123 :: 34 :: (ascii "productid" ++ 34 :: 58 :: (formatInt p.ProductID ++
        44 :: 34 :: (ascii "productName" ++ 34 :: 58 :: 34 ::
          (appendStringBody p.ProductName.length p.ProductName ++ 34 ::
            44 :: 34 :: (ascii "retailPrice" ++ 34 :: 58 ::
              (sc.formatFloat p.RetailPrice ++ 125 :: rest)))))) ∧
    p.RetailPrice.isNaN = false ∧ p.RetailPrice.isInf = false := by
  unfold encodeProduct encodeFloat at h
  by_cases hf : (p.RetailPrice.isNaN || p.RetailPrice.isInf) = true
  · simp [hf] at h
  · simp only [hf, Bool.false_eq_true, if_false, Option.some.injEq] at h
    rw [← h]
    simp only [Bool.or_eq_true, not_or, Bool.not_eq_true] at hf
    refine ⟨?_, hf.1, hf.2⟩
    have e1 : ascii "\x7b\"productid\":" = 123 :: 34 :: (ascii "productid" ++ [34, 58]) := by
      decide
    have e2 : ascii ",\"productName\":" = 44 :: 34 :: (ascii "productName" ++ [34, 58]) := by
      decide
    have e3 : ascii ",\"retailPrice\":" = 44 :: 34 :: (ascii "retailPrice" ++ [34, 58]) := by
      decide
    rw [e1, e2, e3]
    simp [appendString, List.append_assoc]

theorem key_plain (key : GoString)
    (h : key = ascii "productid" ∨ key = ascii "productName" ∨ key = ascii "retailPrice") :
    ∀ c ∈ key, 32 ≤ c ∧ c ≠ 34 ∧ c ≠ 92 := by
  rcases h with rfl | rfl | rfl <;> decide

/-- The scanner reads the text of a product back as its value tree. -/
theorem parseValue_product (sc : Strconv) (p : Product) (text : GoString)
    (h : encodeProduct sc p = some text)
    (hlit : isNumberLit (sc.formatFloat p.RetailPrice) = true)
    (f d : Nat) (hd : d < maxNestingDepth) (rest : GoString) :
    parseValue (f + 5) d (text ++ rest) = some (productTree sc p, rest) := by
  rw [(encodeProduct_text sc p text h rest).1]
  have hd1 : ¬ maxNestingDepth ≤ d := by omega
  have v3 := parseValue_number f (d + 1) (sc.formatFloat p.RetailPrice) 125 rest hlit
    (by omega)
  have m3 := parseMembers_close (f + 1) (d + 1) (ascii "retailPrice") _ rest _
    [(ascii "productid", .number (formatInt p.ProductID)),
      (ascii "productName", .string (appendStringBody p.ProductName.length p.ProductName))]
    (key_plain _ (by simp)) (skipSpace_number _ _ hlit) v3
  have v2 := parseValue_string (f + 1) (d + 1) p.ProductName.length p.ProductName
    (44 :: 34 :: (ascii "retailPrice" ++ 34 :: 58 ::
      (sc.formatFloat p.RetailPrice ++ 125 :: rest)))
  have m2 := parseMembers_comma (f + 2) (d + 1) (ascii "productName") _ _ _
    [(ascii "productid", .number (formatInt p.ProductID))]
    (key_plain _ (by simp)) (skipSpace_id 34 _ (by decide)) v2
  rw [skipSpace_id 34 _ (by decide)] at m2
  have v1 := parseValue_number (f + 2) (d + 1) (formatInt p.ProductID) 44
    (34 :: (ascii "productName" ++ 34 :: 58 :: 34 ::
      (appendStringBody p.ProductName.length p.ProductName ++ 34 ::
        44 :: 34 :: (ascii "retailPrice" ++ 34 :: 58 ::
          (sc.formatFloat p.RetailPrice ++ 125 :: rest)))))
    (isNumberLit_formatInt _) (by omega)
  have m1 := parseMembers_comma (f + 3) (d + 1) (ascii "productid") _ _ _ []
    (key_plain _ (by simp)) (skipSpace_number _ _ (isNumberLit_formatInt _)) v1
  rw [skipSpace_id 34 _ (by decide)] at m1
  have m0 : ∀ X : GoString, parseValue (f + 4 + 1) d (123 :: 34 :: X) =
      parseMembers (f + 4) (d + 1) (34 :: X) [] := by
    intro X
    simp [parseValue, hd1, skipSpace_id 34 _ (by decide : isSpace 34 = false)]
  exact (m0 _).trans (m1.trans (m2.trans m3))

theorem unquote_body (name : GoString) (h : validUTF8 name = true) :
    unquote (appendStringBody name.length name) = some name :=
  unquoteAux_body name.length name h _ (Nat.le_refl _)

/-- The decoder turns the value tree of a product back into the product. -/
theorem decodeElem_productTree (sc : Strconv) (p : Product)
    (hname : validUTF8 p.ProductName = true) (hid : inInt64 p.ProductID)
    (hprice : sc.parseFloat (sc.formatFloat p.RetailPrice) = some p.RetailPrice) :
    decodeElem sc (productTree sc p) = some p := by
  have k1 : unquote (ascii "productid") = some (ascii "productid") := by decide
  have k2 : unquote (ascii "productName") = some (ascii "productName") := by decide
  have k3 : unquote (ascii "retailPrice") = some (ascii "retailPrice") := by decide
  have f1 : foldName (ascii "productid") = ascii "PRODUCTID" := by decide
  have f2 : foldName (ascii "productName") = ascii "PRODUCTNAME" := by decide
  have f3 : foldName (ascii "retailPrice") = ascii "RETAILPRICE" := by decide
  have n1 : ¬ ascii "PRODUCTNAME" = ascii "PRODUCTID" := by decide
  have n2 : ¬ ascii "RETAILPRICE" = ascii "PRODUCTID" := by decide
  have n3 : ¬ ascii "RETAILPRICE" = ascii "PRODUCTNAME" := by decide
  obtain ⟨id, name, price⟩ := p
  simp only [decodeElem, productTree, decodeMembers, setField, storeID, storeName, storePrice,
    k1, k2, k3, f1, f2, f3, n1, n2, n3, if_true, if_false, parseInt_formatInt _ hid,
    unquote_body _ hname, hprice, Product.zero]

/-! ## Arrays and documents -/

theorem encodeProduct_head (sc : Strconv) (p : Product) (text : GoString)
    (h : encodeProduct sc p = some text) : ∃ t, text = 123 :: t ∧ 12 ≤ t.length := by
  have := (encodeProduct_text sc p text h []).1
  rw [List.append_nil] at this
  rw [this]
  refine ⟨_, rfl, ?_⟩
  simp only [List.length_cons, List.length_append]
  have : (ascii "productid").length = 9 := by decide
  omega

theorem encodeElems_cons (sc : Strconv) (p : Product) (ps : List Product) (text : GoString)
    (h : encodeElems sc (p :: ps) = some text) :
    ∃ a, encodeProduct sc p = some a ∧
      ((ps = [] ∧ text = a) ∨ (∃ b, ps ≠ [] ∧ encodeElems sc ps = some b ∧ text = a ++ 44 :: b)) := by
  cases ps with
  | nil => exact ⟨text, h, Or.inl ⟨rfl, rfl⟩⟩
  | cons q qs =>
    simp only [encodeElems] at h
    cases ha : encodeProduct sc p with
    | none => simp [ha] at h
    | some a =>
      cases hb : encodeElems sc (q :: qs) with
      | none => simp [ha, hb] at h
      | some b =>
        simp only [ha, hb, Option.some.injEq] at h
        exact ⟨a, rfl, Or.inr ⟨b, by simp, rfl, h.symm⟩⟩

theorem encodeElems_head (sc : Strconv) (ps : List Product) (hne : ps ≠ []) (text : GoString)
    (h : encodeElems sc ps = some text) :
    ∃ t, text = 123 :: t ∧ ps.length + 11 ≤ t.length := by
  induction ps generalizing text with
  | nil => exact absurd rfl hne
  | cons p ps ih =>
    obtain ⟨a, ha, hcase⟩ := encodeElems_cons sc p ps text h
    obtain ⟨t, rfl, hl⟩ := encodeProduct_head sc p a ha
    rcases hcase with ⟨rfl, rfl⟩ | ⟨b, hne1, hb, rfl⟩
    · exact ⟨t, rfl, by simp; omega⟩
    · obtain ⟨t1, rfl, hl1⟩ := ih hne1 b hb
      refine ⟨t ++ 44 :: 123 :: t1, rfl, ?_⟩
      simp only [List.length_append, List.length_cons]
      omega

theorem parseElems_comma (g d : Nat) (inp rest : GoString) (v : JValue) (acc : List JValue)
    (hv : parseValue g d inp = some (v, 44 :: rest)) :
    parseElems (g + 1) d inp acc = parseElems g d (skipSpace rest) (acc ++ [v]) := by
  rw [parseElems, hv]
  simp [skipSpace, isSpace]

theorem parseElems_close (g d : Nat) (inp rest : GoString) (v : JValue) (acc : List JValue)
    (hv : parseValue g d inp = some (v, 93 :: rest)) :
    parseElems (g + 1) d inp acc = some (.array (acc ++ [v]), rest) := by
  rw [parseElems, hv]
  simp [skipSpace, isSpace]

/-- The scanner reads the elements the encoder wrote, up to the closing
bracket, back as their value trees. -/
theorem parseElems_encode (sc : Strconv) (ps : List Product) (hne : ps ≠ [])
    (text : GoString) (h : encodeElems sc ps = some text)
    (hlit : ∀ p ∈ ps, isNumberLit (sc.formatFloat p.RetailPrice) = true)
    (g d : Nat) (hg : ps.length + 5 ≤ g) (hd : d < maxNestingDepth)
    (acc : List JValue) (rest : GoString) :
    parseElems g d (text ++ 93 :: rest) acc =
      some (.array (acc ++ ps.map (productTree sc)), rest) := by
  induction ps generalizing text g acc with
  | nil => exact absurd rfl hne
  | cons p ps ih =>
    obtain ⟨a, ha, hcase⟩ := encodeElems_cons sc p ps text h
    obtain ⟨f, rfl⟩ : ∃ f, g = f + 5 + 1 := ⟨g - 6, by simp at hg; omega⟩
    rcases hcase with ⟨rfl, rfl⟩ | ⟨b, hne1, hb, rfl⟩
    · have hv := parseValue_product sc p text ha (hlit p (by simp)) f d hd (93 :: rest)
      rw [parseElems_close _ _ _ _ _ _ hv]
      rfl
    · have hv := parseValue_product sc p a ha (hlit p (by simp)) f d hd
        (44 :: (b ++ 93 :: rest))
      obtain ⟨t1, rfl, _⟩ := encodeElems_head sc ps hne1 b hb
      have hrec := ih hne1 (123 :: t1) hb (fun q hq => hlit q (by simp [hq])) (f + 5)
        (by simp at hg; omega) (acc ++ [productTree sc p])
      rw [List.append_assoc, List.cons_append, parseElems_comma _ _ _ _ _ _ hv,
        List.cons_append, skipSpace_id 123 _ (by decide : isSpace 123 = false)]
      rw [List.cons_append] at hrec
      rw [hrec]
      simp

theorem decodeElems_trees (sc : Strconv) (ps : List Product)
    (hname : ∀ p ∈ ps, validUTF8 p.ProductName = true)
    (hid : ∀ p ∈ ps, inInt64 p.ProductID)
    (hprice : ∀ p ∈ ps, sc.parseFloat (sc.formatFloat p.RetailPrice) = some p.RetailPrice) :
    decodeElems sc (ps.map (productTree sc)) = some ps := by
  induction ps with
  | nil => rfl
  | cons p ps ih =>
    simp only [List.map_cons, decodeElems,
      decodeElem_productTree sc p (hname p (by simp)) (hid p (by simp)) (hprice p (by simp)),
      ih (fun q hq => hname q (by simp [hq])) (fun q hq => hid q (by simp [hq]))
        (fun q hq => hprice q (by simp [hq]))]

theorem encodeElems_some (sc : Strconv) (ps : List Product)
    (h : ∀ p ∈ ps, p.RetailPrice.isNaN = false ∧ p.RetailPrice.isInf = false) :
    ∃ text, encodeElems sc ps = some text := by
  induction ps with
  | nil => exact ⟨[], rfl⟩
  | cons p ps ih =>
    obtain ⟨b, hb⟩ := ih (fun q hq => h q (by simp [hq]))
    have hp := h p (by simp)
    have ha : ∃ a, encodeProduct sc p = some a := by
      simp [encodeProduct, encodeFloat, hp.1, hp.2]
    obtain ⟨a, ha⟩ := ha
    cases ps with
    | nil => exact ⟨a, ha⟩
    | cons q qs => exact ⟨a ++ 44 :: b, by simp [encodeElems, ha, hb]⟩

/-- Encoding succeeds on a collection whose prices are all finite. -/
theorem marshalProducts_some (sc : Strconv) (x : Slice Product)
    (h : ∀ p ∈ x.toList, p.RetailPrice.isNaN = false ∧ p.RetailPrice.isInf = false) :
    ∃ s, marshalProducts sc x = some s := by
  cases x with
  | null => exact ⟨_, rfl⟩
  | items ps =>
    obtain ⟨text, ht⟩ := encodeElems_some sc ps h
    exact ⟨91 :: (text ++ [93]), by simp [marshalProducts, ht]⟩

/-- Decoding what was encoded gives the collection back. -/
theorem unmarshal_marshal (sc : Strconv) (x : Slice Product) (s : GoString)
    (henc : marshalProducts sc x = some s)
    (hname : ∀ p ∈ x.toList, validUTF8 p.ProductName = true)
    (hid : ∀ p ∈ x.toList, inInt64 p.ProductID)
    (hsc : ∀ p ∈ x.toList, sc.RoundTrips p.RetailPrice) :
    unmarshalProducts sc s = .ok x := by
  cases x with
  | null =>
    simp only [marshalProducts, Option.some.injEq] at henc
    subst henc
    rfl
  | items ps =>
    simp only [Slice.toList] at hname hid hsc
    simp only [marshalProducts] at henc
    cases hb : encodeElems sc ps with
    | none => simp [hb] at henc
    | some body =>
      simp only [hb, Option.some.injEq] at henc
      subst henc
      cases ps with
      | nil =>
        simp only [encodeElems, Option.some.injEq] at hb
        subst hb
        rfl
      | cons p ps =>
        obtain ⟨t, rfl, hl⟩ := encodeElems_head sc (p :: ps) (by simp) body hb
        have hparse := parseElems_encode sc (p :: ps) (by simp) (123 :: t) hb
          (fun q hq => (hsc q hq).1) ((123 :: t).length + 2) 1 (by simp at hl ⊢; omega)
          (by decide) [] []
        have hdoc : parseDocument (91 :: (123 :: t ++ [93])) =
            some (.array ((p :: ps).map (productTree sc))) := by
          unfold parseDocument
          rw [skipSpace_id 91 _ (by decide)]
          have hstep : parseValue ((91 :: (123 :: t ++ [93])).length + 1) 0
              (91 :: (123 :: t ++ [93])) =
              parseElems ((123 :: t).length + 2) 1 (123 :: t ++ [93]) [] := by
            have hlen : (91 :: (123 :: t ++ [93])).length + 1 = ((123 :: t).length + 2) + 1 := by
              simp
            rw [hlen]
            simp [parseValue, maxNestingDepth, skipSpace_id 123 _ (by decide : isSpace 123 = false)]
          rw [hstep, hparse]
          simp [skipSpace]
        unfold unmarshalProducts
        rw [hdoc]
        simp only [decodeSlice, decodeElems_trees sc (p :: ps) hname hid (fun q hq => (hsc q hq).2)]

/-! ## The codec and the store accessor: the claims -/

/-- C3 (as amended): for every collection, the nil and the empty one
included, whose names are well-formed UTF-8, whose identifiers fit an
`int` and whose prices are finite, and for which `strconv` keeps its
promise on each price, `parseProductsToString` succeeds with some `s` and
`parseStringToProducts s` gives the collection back. -/
theorem C3_decode_encode_lossless (sc : Strconv) (x : Slice Product)
    (hx : Carriable x) (hsc : ∀ p ∈ x.toList, sc.RoundTrips p.RetailPrice) :
    ∃ s, parseProductsToString sc x = .ok s ∧ parseStringToProducts sc s = .ok x := by
  obtain ⟨s, hs⟩ := marshalProducts_some sc x (fun p hp => (hx p hp).2.2)
  have hu := unmarshal_marshal sc x s hs (fun p hp => (hx p hp).1) (fun p hp => (hx p hp).2.1) hsc
  exact ⟨s, by simp [parseProductsToString, hs], by simp [parseStringToProducts, hu]⟩

/-- C3, witness: the collection holding the widget of the scenario. -/
theorem C3_decode_encode_lossless_witness :
    Carriable (.items [widget]) ∧
    (∀ p ∈ (Slice.items [widget]).toList, sampleStrconv.RoundTrips p.RetailPrice) ∧
    ∃ s, parseProductsToString sampleStrconv (.items [widget]) = .ok s ∧
      parseStringToProducts sampleStrconv s = .ok (.items [widget]) :=
  ⟨by simp only [Carriable, Slice.toList]; decide,
   by simp only [Slice.toList]; decide,
   C3_decode_encode_lossless sampleStrconv (.items [widget])
     (by simp only [Carriable, Slice.toList]; decide)
     (by simp only [Slice.toList]; decide)⟩

/-- C3, counterexample: a collection with a NaN price is not encoded at
all, whatever `strconv` does; and a collection whose one name is the byte
`0xff` is encoded, but decodes to a different collection, the name
replaced by U+FFFD. -/
theorem C3_counterexample :
    (∀ sc : Strconv, parseProductsToString sc (.items [nanPriced]) =
      .error .jsonUnsupportedValue) ∧
    parseProductsToString sampleStrconv (.items [badName]) =
      .ok (ascii "[\x7b\"productid\":1,\"productName\":\"\\ufffd\",\"retailPrice\":0\x7d]") ∧
    parseStringToProducts sampleStrconv
      (ascii "[\x7b\"productid\":1,\"productName\":\"\\ufffd\",\"retailPrice\":0\x7d]") =
      .ok (.items [badNameDecoded]) ∧
    Slice.items [badNameDecoded] ≠ Slice.items [badName] :=
  ⟨fun _ => rfl, by decide, by decide, by decide⟩

/-- The loop of `getProductsFromDB` appends one product for every row,
scanned or not. -/
theorem scanRows_products (rows : List RowScan) (acc : List Product) (logs : List GoString) :
    (scanRows rows (.items acc) logs).1 = .items (acc ++ rows.map RowScan.product) := by
  induction rows generalizing acc logs with
  | nil => simp [scanRows]
  | cons row rows ih =>
    simp only [scanRows, Slice.append]
    rw [ih]
    simp

/-- C4, the code at the failing input: of two rows, the first failing to
scan and the second scanning as the widget, `getProductsFromDB` returns
two products, the zero product left by the failed scan and the widget;
one line is logged; only one row scanned successfully. -/
theorem C4_failed_scan_is_appended :
    (getProductsFromDB (freshWorld 0 [.failed Product.zero, .ok widget])).1 =
      .ok (.items [Product.zero, widget]) ∧
    (getProductsFromDB (freshWorld 0 [.failed Product.zero, .ok widget])).2.logs.length = 1 ∧
    ([RowScan.failed Product.zero, RowScan.ok widget].filter RowScan.succeeded).length = 1 ∧
    (Slice.items [Product.zero, widget]).len = 2 := by
  decide

/-- C7, the code at the failing input: with the text `null` in the cache,
the handler answers 200 with a nil `Products`, which `ctx.JSON` writes as
`"products":null`. -/
theorem C7_cached_null_gives_null_products :
    (∀ sc : Strconv, parseStringToProducts sc (ascii "null") = .ok .null) ∧
    (∀ sc : Strconv, (getProductsHandler sc (cachedWorld 0 (ascii "null") 10 [])).1 =
      ⟨200, .envelope ⟨.null, ascii "Redis"⟩⟩) ∧
    (∀ sc : Strconv, marshalResponse sc ⟨.null, ascii "Redis"⟩ =
      some (ascii "\x7b\"products\":null,\"source\":\"Redis\"\x7d")) ∧
    (Slice.null : Slice Product).isNil = true :=
  ⟨fun _ => rfl, fun _ => rfl, fun _ => rfl, rfl⟩

/-- On the store path the collection is never nil: `getProductsFromDB`
starts from `make([]Product, 0)`, so no rows give the empty collection. -/
theorem getProductsFromDB_not_nil (w : World) (x : Slice Product)
    (h : (getProductsFromDB w).1 = .ok x) :
    x.isNil = false ∧ (w.query = .ok [] → x = .items []) := by
  rw [getProductsFromDB_fst] at h
  cases hq : w.query with
  | error msg => simp [hq] at h
  | ok rows =>
    simp only [hq, Except.ok.injEq] at h
    rw [scanRows_products] at h
    subst h
    refine ⟨rfl, fun hr => ?_⟩
    simp only [Except.ok.injEq] at hr
    subst hr
    rfl

/-- C2 (as amended): after a cache Miss, a store fetch of `x` and a
successful cache set, where the names of `x` are well-formed UTF-8 (its
identifiers fit an `int`, and `strconv` keeps its promise on its prices),
the answer is 200 with exactly `x` and source `Database`; the cache then
holds under `Products`, until 10 seconds after the request, a string that
`parseStringToProducts` decodes to `x`; and any request that finds the
cache so, before that instant and with the cache reachable, is answered
200 with exactly `x` and source `Redis`. -/
theorem C2_miss_repopulates_cache (sc : Strconv) (w : World) (x : Slice Product)
    (hget : (getProductsFromRedis w).1 = .error .redisNil)
    (hdb : (getProductsFromDB (getProductsFromRedis w).2).1 = .ok x)
    (hset : (setProductsToRedis sc x (getProductsFromDB (getProductsFromRedis w).2).2).1 = none)
    (hname : ∀ p ∈ x.toList, validUTF8 p.ProductName = true)
    (hid : ∀ p ∈ x.toList, inInt64 p.ProductID)
    (hsc : ∀ p ∈ x.toList, sc.RoundTrips p.RetailPrice) :
    (getProductsHandler sc w).1 = ⟨200, .envelope ⟨x, ascii "Database"⟩⟩ ∧
    ∃ s, (getProductsHandler sc w).2.keys (ascii "Products") = some (s, w.now + 10 * second) ∧
      parseStringToProducts sc s = .ok x ∧
      ∀ w1 : World, w1.keys = (getProductsHandler sc w).2.keys → w1.getFault = none →
        w1.now < w.now + 10 * second →
        (getProductsHandler sc w1).1 = ⟨200, .envelope ⟨x, ascii "Redis"⟩⟩ := by
  have hdb1 : (getProductsFromDB (getProductsFromRedis w).2).1 =
      match w.query with
      | .error msg => .error (.sqlFault msg)
      | .ok rows => .ok (scanRows rows (.items []) []).1 := by
    rw [getProductsFromDB_fst, getProductsFromRedis_eq w]
  rcases handler_fallback_cases sc w _ hget with
    ⟨msg, q, _, _, _⟩ | ⟨rows, e1, q, p, _, _, _⟩ | ⟨rows, s, msg, q, p, f, _, _, _⟩ |
    ⟨rows, s, q, p, f, r, k, _⟩
  · rw [hdb1, q] at hdb
    simp at hdb
  · rw [hdb1, q] at hdb
    simp only [Except.ok.injEq] at hdb
    rw [hdb] at p
    simp [setProductsToRedis, p] at hset
  · rw [hdb1, q] at hdb
    simp only [Except.ok.injEq] at hdb
    rw [hdb] at p
    simp only [setProductsToRedis, p, redisSet_fst] at hset
    rw [getProductsFromDB_snd, getProductsFromRedis_eq w, q] at hset
    simp [f] at hset
  · rw [hdb1, q] at hdb
    simp only [Except.ok.injEq] at hdb
    rw [hdb] at p r
    have hm : marshalProducts sc x = some s := by
      unfold parseProductsToString at p
      cases hmm : marshalProducts sc x with
      | none => simp [hmm] at p
      | some t => simp [hmm] at p; rw [p]
    have hu : parseStringToProducts sc s = .ok x := by
      simp [parseStringToProducts, unmarshal_marshal sc x s hm hname hid hsc]
    refine ⟨r, s, by rw [k]; simp, hu, ?_⟩
    intro w1 hk hf hnow
    have hg : (getProductsFromRedis w1).1 = .ok s := by
      rw [getProductsFromRedis_fst, hf, hk, k]
      simp [hnow]
    rw [handler_hit sc w1 s hg, hu]

/-- C2, witness: the scenario, a store holding the widget and an empty
cache. -/
theorem C2_miss_repopulates_cache_witness :
    (getProductsFromRedis (freshWorld 0 [.ok widget])).1 = .error .redisNil ∧
    (getProductsFromDB (getProductsFromRedis (freshWorld 0 [.ok widget])).2).1 =
      .ok (.items [widget]) ∧
    (getProductsHandler sampleStrconv (freshWorld 0 [.ok widget])).1 =
      ⟨200, .envelope ⟨.items [widget], ascii "Database"⟩⟩ ∧
    ∃ s, (getProductsHandler sampleStrconv (freshWorld 0 [.ok widget])).2.keys (ascii "Products") =
        some (s, (freshWorld 0 [.ok widget]).now + 10 * second) ∧
      parseStringToProducts sampleStrconv s = .ok (.items [widget]) ∧
      ∀ w1 : World,
        w1.keys = (getProductsHandler sampleStrconv (freshWorld 0 [.ok widget])).2.keys →
        w1.getFault = none → w1.now < (freshWorld 0 [.ok widget]).now + 10 * second →
        (getProductsHandler sampleStrconv w1).1 =
          ⟨200, .envelope ⟨.items [widget], ascii "Redis"⟩⟩ :=
  ⟨by decide, by decide,
   C2_miss_repopulates_cache sampleStrconv (freshWorld 0 [.ok widget]) (.items [widget])
     (by decide) (by decide) (by decide)
     (by simp only [Slice.toList]; decide) (by simp only [Slice.toList]; decide)
     (by simp only [Slice.toList]; decide)⟩

/-- C2, counterexample: the store returns one product whose name is the
byte `0xff`; the cache get is a Miss and the cache set succeeds; the
answer is 200 with that product and source `Database`, but the string
stored decodes to a different collection (the name is U+FFFD), and the
request that follows at once is answered from `Redis` with that
different collection. -/
theorem C2_counterexample :
    (getProductsFromRedis (freshWorld 0 [.ok badName])).1 = .error .redisNil ∧
    (getProductsFromDB (getProductsFromRedis (freshWorld 0 [.ok badName])).2).1 =
      .ok (.items [badName]) ∧
    (setProductsToRedis sampleStrconv (.items [badName])
      (getProductsFromDB (getProductsFromRedis (freshWorld 0 [.ok badName])).2).2).1 = none ∧
    (getProductsHandler sampleStrconv (freshWorld 0 [.ok badName])).1 =
      ⟨200, .envelope ⟨.items [badName], ascii "Database"⟩⟩ ∧
    (getProductsHandler sampleStrconv (freshWorld 0 [.ok badName])).2.keys (ascii "Products") =
      some (ascii "[\x7b\"productid\":1,\"productName\":\"\\ufffd\",\"retailPrice\":0\x7d]",
        10 * second) ∧
    parseStringToProducts sampleStrconv
      (ascii "[\x7b\"productid\":1,\"productName\":\"\\ufffd\",\"retailPrice\":0\x7d]") =
      .ok (.items [badNameDecoded]) ∧
    (getProductsHandler sampleStrconv
      (getProductsHandler sampleStrconv (freshWorld 0 [.ok badName])).2).1 =
      ⟨200, .envelope ⟨.items [badNameDecoded], ascii "Redis"⟩⟩ ∧
    Slice.items [badNameDecoded] ≠ Slice.items [badName] := by
  decide

/-! ## Witnesses -/

/-- C1, witness: the cache holds the encoding of the widget, not yet
expired. -/
theorem C1_cache_hit_served_from_cache_witness :
    (getProductsFromRedis (cachedWorld 5 widgetJson 10 [])).1 = .ok widgetJson ∧
    parseStringToProducts sampleStrconv widgetJson = .ok (.items [widget]) ∧
    ((getProductsHandler sampleStrconv (cachedWorld 5 widgetJson 10 [])).1 =
        ⟨200, .envelope ⟨.items [widget], ascii "Redis"⟩⟩ ∧
      (getProductsHandler sampleStrconv (cachedWorld 5 widgetJson 10 [])).2.calls =
        (cachedWorld 5 widgetJson 10 []).calls ++ [Call.redisGet (ascii "Products")] ∧
      (∀ sql, Call.dbQuery sql ∉ [Call.redisGet (ascii "Products")]) ∧
      (getProductsHandler sampleStrconv (cachedWorld 5 widgetJson 10 [])).2.keys =
        (cachedWorld 5 widgetJson 10 []).keys) :=
  ⟨by decide, by decide,
   C1_cache_hit_served_from_cache sampleStrconv (cachedWorld 5 widgetJson 10 []) widgetJson
     (.items [widget]) (by decide) (by decide)⟩

/-- C5, witness: an empty cache and a store that cannot be queried. -/
theorem C5_store_failure_no_cache_write_witness :
    (getProductsFromRedis (storeDownWorld 0)).1 = .error .redisNil ∧
    (getProductsFromDB (getProductsFromRedis (storeDownWorld 0)).2).1 =
      .error (.sqlFault (ascii "connection refused")) ∧
    ((getProductsHandler sampleStrconv (storeDownWorld 0)).1 =
        ⟨500, .failure (.sqlFault (ascii "connection refused"))⟩ ∧
      (getProductsHandler sampleStrconv (storeDownWorld 0)).2.calls =
        (storeDownWorld 0).calls ++
          [Call.redisGet (ascii "Products"), Call.dbQuery selectProducts] ∧
      (∀ k v t, Call.redisSet k v t ∉
        [Call.redisGet (ascii "Products"), Call.dbQuery selectProducts]) ∧
      (getProductsHandler sampleStrconv (storeDownWorld 0)).2.keys = (storeDownWorld 0).keys) :=
  ⟨by decide, by decide,
   C5_store_failure_no_cache_write sampleStrconv (storeDownWorld 0)
     (.sqlFault (ascii "connection refused")) (by decide) (by decide)⟩

/-- C6, witness: the cache holds a text that is not JSON. -/
theorem C6_corrupt_hit_fails_request_witness :
    (getProductsFromRedis (cachedWorld 5 (ascii "[oops") 10 [.ok widget])).1 =
      .ok (ascii "[oops") ∧
    parseStringToProducts sampleStrconv (ascii "[oops") = .error .jsonMalformed ∧
    ((getProductsHandler sampleStrconv (cachedWorld 5 (ascii "[oops") 10 [.ok widget])).1 =
        ⟨500, .failure .jsonMalformed⟩ ∧
      (getProductsHandler sampleStrconv (cachedWorld 5 (ascii "[oops") 10 [.ok widget])).2.calls =
        (cachedWorld 5 (ascii "[oops") 10 [.ok widget]).calls ++
          [Call.redisGet (ascii "Products")] ∧
      (∀ sql, Call.dbQuery sql ∉ [Call.redisGet (ascii "Products")]) ∧
      (∀ k v t, Call.redisSet k v t ∉ [Call.redisGet (ascii "Products")]) ∧
      (getProductsHandler sampleStrconv (cachedWorld 5 (ascii "[oops") 10 [.ok widget])).2.keys =
        (cachedWorld 5 (ascii "[oops") 10 [.ok widget]).keys) :=
  ⟨by decide, by decide,
   C6_corrupt_hit_fails_request sampleStrconv (cachedWorld 5 (ascii "[oops") 10 [.ok widget])
     (ascii "[oops") .jsonMalformed (by decide) (by decide)⟩

/-- C8, witness: an empty cache and a store returning one product with a
NaN price, which cannot be encoded: the answer is 500. -/
theorem C8_repopulation_failure_fails_request_witness :
    (getProductsFromRedis (freshWorld 0 [.ok nanPriced])).1 = .error .redisNil ∧
    (getProductsFromDB (getProductsFromRedis (freshWorld 0 [.ok nanPriced])).2).1 =
      .ok (.items [nanPriced]) ∧
    (∃ e, parseProductsToString sampleStrconv (.items [nanPriced]) = .error e) ∧
    (getProductsHandler sampleStrconv (freshWorld 0 [.ok nanPriced])).1.status = 500 ∧
    ∃ e, (getProductsHandler sampleStrconv (freshWorld 0 [.ok nanPriced])).1.body = .failure e :=
  ⟨by decide, by decide, ⟨_, rfl⟩,
   (C8_repopulation_failure_fails_request sampleStrconv (freshWorld 0 [.ok nanPriced])
     (.items [nanPriced]) .redisNil (by decide) (by decide)).1 (Or.inl ⟨_, rfl⟩)⟩

/-- C9, witness: an empty cache against a cache that cannot be reached,
over the same store. -/
theorem C9_miss_and_cache_error_alike_witness :
    (getProductsFromRedis (freshWorld 0 [.ok widget])).1 = .error .redisNil ∧
    (getProductsFromRedis
      { freshWorld 0 [.ok widget] with getFault := some (ascii "i/o timeout") }).1 =
      .error (.redisFault (ascii "i/o timeout")) ∧
    (getProductsHandler sampleStrconv (freshWorld 0 [.ok widget])).1 =
      (getProductsHandler sampleStrconv
        { freshWorld 0 [.ok widget] with getFault := some (ascii "i/o timeout") }).1 ∧
    requestCalls sampleStrconv (freshWorld 0 [.ok widget]) =
      requestCalls sampleStrconv
        { freshWorld 0 [.ok widget] with getFault := some (ascii "i/o timeout") } :=
  ⟨by decide, by decide,
   (C9_miss_and_cache_error_alike sampleStrconv (freshWorld 0 [.ok widget])
     { freshWorld 0 [.ok widget] with getFault := some (ascii "i/o timeout") }
     (.redisFault (ascii "i/o timeout")) rfl rfl (by decide) (by decide)).1,
   (C9_miss_and_cache_error_alike sampleStrconv (freshWorld 0 [.ok widget])
     { freshWorld 0 [.ok widget] with getFault := some (ascii "i/o timeout") }
     (.redisFault (ascii "i/o timeout")) rfl rfl (by decide) (by decide)).2.1⟩

/-- C10, witness: the entry written at instant 0 is read at 10 seconds
exactly; the request is answered from the store. -/
theorem C10_cache_writes_and_expiry_witness :
    (cachedWorld (10 * second) widgetJson (0 + 10 * second) [.ok widget]).keys (ascii "Products") =
      some (widgetJson, 0 + 10 * second) ∧
    0 + 10 * second ≤ (cachedWorld (10 * second) widgetJson (0 + 10 * second) [.ok widget]).now ∧
    (∃ e, (getProductsFromRedis
      (cachedWorld (10 * second) widgetJson (0 + 10 * second) [.ok widget])).1 = .error e) ∧
    Call.dbQuery selectProducts ∈ requestCalls sampleStrconv
      (cachedWorld (10 * second) widgetJson (0 + 10 * second) [.ok widget]) ∧
    (getProductsHandler sampleStrconv
      (cachedWorld (10 * second) widgetJson (0 + 10 * second) [.ok widget])).1 =
      ⟨200, .envelope ⟨.items [widget], ascii "Database"⟩⟩ :=
  ⟨by decide, by decide,
   ((C10_cache_writes_and_expiry sampleStrconv).2.2.2
     (cachedWorld (10 * second) widgetJson (0 + 10 * second) [.ok widget]) widgetJson 0
     (by decide) (by decide)).1,
   ((C10_cache_writes_and_expiry sampleStrconv).2.2.2
     (cachedWorld (10 * second) widgetJson (0 + 10 * second) [.ok widget]) widgetJson 0
     (by decide) (by decide)).2.1,
   ((C10_cache_writes_and_expiry sampleStrconv).2.2.2
     (cachedWorld (10 * second) widgetJson (0 + 10 * second) [.ok widget]) widgetJson 0
     (by decide) (by decide)).2.2.2 (.items [widget]) widgetJson (by decide) (by decide)
     (by decide)⟩

end CacheDB
